import Mathlib

/-!
Verification development for the CLOB-DEX collateral repository: a shallow
embedding of the two contracts (the `orderbook` matching engine and the
`asset-manager` custody contract) together with theorems checking the
specification's claims against it.

Modelling conventions:
* `Address`es (accounts, tokens) and symbols are modelled as `Nat`.
* Rust `u128` values (prices, quantities) are modelled as `Nat`; subtraction
  only occurs where the source guards it (`fill_amount <= rem`), so `Nat`
  truncated subtraction agrees with the machine semantics there.  Where a
  `u128 → i128` cast wraps (the precision calculation) the wrap is modelled
  explicitly with `% 2 ^ 128`.
* Rust `i128` balances are modelled as `Int`.
* Soroban `Vec` is a `List`, soroban `Map` an association list with the same
  observable `get` / `set` / `remove` / `is_empty` behaviour.
* Host aborts (`panic_with_error!` / `assert_with_error!` / `assert!`) are
  modelled with `Except`: an `Except.error` result is an aborted transaction,
  which leaves no observable state change.
-/

namespace Clob

/-- Error codes of `orderbook/src/error.rs`.  `panicked` stands for a host
abort raised by a plain `assert!` / `assert_eq!` / `unreachable!`, which
carries no contract error code. -/
inductive Error where
  | EmptyNodeView
  | ZeroValueInsert
  | NotAChildOfItsParent
  | NotAParentOfChild
  | IncorrectPriceLevelStorageState
  | InvalidOrderId
  | SameValueStored
  | AmountMustBePositive
  | SamePairTokens
  | BalanceNotEnough
  | OrderNotFound
  | IncorrectPrecisionCalculation
  | InvalidIdFailedToRemove
  | InvalidIdFailedToUpdate
  | InvalidIdFailedToLoad
  | PriceStoreInvalidIndex
  | PriceStoreOrderNotFoundByIndex
  | LevelsStorePriceNotFound
  | LevelsStoreLevelNotFound
  | LevelsStoreRemoveFailed
  | panicked
  deriving DecidableEq, Repr

/-- `order.rs::OrderSide`. -/
inductive OrderSide where
  | BUY
  | SELL
  deriving DecidableEq, Repr

/-- `order.rs::OrderType`. -/
inductive OrderType where
  | Limit
  | Market
  deriving DecidableEq, Repr

/-- `order.rs::Order`. -/
structure Order where
  order_id : Nat
  account : Nat
  quantity : Nat
  price : Nat
  fee_amount : Nat
  fee_token_asset : Nat
  deriving DecidableEq, Repr

/-- `order.rs::NewOrder`. -/
structure NewOrder where
  quantity : Nat
  price : Nat
  fee_amount : Nat
  fee_token_asset : Nat
  deriving DecidableEq, Repr

/-- `order.rs::NewAccountOrder`. -/
structure NewAccountOrder where
  quantity : Nat
  price : Nat
  fee_amount : Nat
  fee_token_asset : Nat
  account : Nat
  deriving DecidableEq, Repr

/-- `order.rs`: `impl AddField<Address, NewAccountOrder> for NewOrder`. -/
def NewOrder.into_order (o : NewOrder) (account : Nat) : NewAccountOrder :=
  { quantity := o.quantity, price := o.price, fee_amount := o.fee_amount
    fee_token_asset := o.fee_token_asset, account := account }

/-- `order.rs`: `impl AddField<u64, Order> for NewAccountOrder`. -/
def NewAccountOrder.into_order (o : NewAccountOrder) (id : Nat) : Order :=
  { order_id := id, account := o.account, quantity := o.quantity
    price := o.price, fee_amount := o.fee_amount
    fee_token_asset := o.fee_token_asset }

/-- `orderbook.rs::PriceLevelId`. -/
structure PriceLevelId where
  id : Nat
  price : Nat
  deriving DecidableEq, Repr

/-- `orderbook.rs::OrderBookId`. -/
inductive OrderBookId where
  | BuyId (plid : PriceLevelId)
  | SellId (plid : PriceLevelId)
  deriving DecidableEq, Repr

/-- `OrderBookId::buy_id`. -/
def OrderBookId.buy_id (price id : Nat) : OrderBookId :=
  .BuyId { id := id, price := price }

/-- `OrderBookId::sell_id`. -/
def OrderBookId.sell_id (price id : Nat) : OrderBookId :=
  .SellId { id := id, price := price }

/-! ### Association list standing in for `soroban_sdk::Map<u64, u32>`
Only `get`, `set`, `remove` and `is_empty` are used by the source; on those
operations the association list is observably identical to the host map. -/

def alGet : List (Nat × Nat) → Nat → Option Nat
  | [], _ => none
  | p :: t, k => if p.1 = k then some p.2 else alGet t k

def alSet : List (Nat × Nat) → Nat → Nat → List (Nat × Nat)
  | [], k, v => [(k, v)]
  | p :: t, k, v => if p.1 = k then (k, v) :: t else p :: alSet t k v

def alRemove : List (Nat × Nat) → Nat → List (Nat × Nat)
  | [], _ => []
  | p :: t, k => if p.1 = k then alRemove t k else p :: alRemove t k

/-- `price_store.rs::PriceStore`: the FIFO of orders at one price, with
tombstoned slots (`none`) and an id→slot-index map. -/
structure PriceStore where
  price : Nat
  orders_id_counter : Nat
  orders : List (Option Order)
  order_ids : List (Nat × Nat)
  deriving DecidableEq, Repr

namespace PriceStore

/-- `PriceStore::new`. -/
def new (price : Nat) : PriceStore :=
  { price := price, orders_id_counter := 0, orders := [], order_ids := [] }

/-- `PriceStore::is_empty`.  The source `assert!`s a consistency invariant
between `order_ids` and `orders` before answering; the invariant is proved
for every reachable store below (`WFLevel`), so the assert never fires and
is not modelled as an abort here. -/
def is_empty (ps : PriceStore) : Bool :=
  ps.order_ids.isEmpty

/-- `PriceStore::remove_order`. -/
def remove_order (ps : PriceStore) (order_id : Nat) :
    Option Order × PriceStore :=
  match alGet ps.order_ids order_id with
  | none => (none, ps)
  | some index =>
    let removed := (ps.orders.get? index).join
    (removed,
      { ps with
        order_ids := alRemove ps.order_ids order_id
        orders := ps.orders.set index none })

/-- `PriceStore::add_order`. -/
def add_order (ps : PriceStore) (order : NewAccountOrder) :
    Nat × PriceStore :=
  let id := ps.orders_id_counter + 1
  (id,
    { ps with
      orders_id_counter := id
      orders := ps.orders ++ [some (order.into_order id)]
      order_ids := alSet ps.order_ids id ps.orders.length })

/-- `PriceStore::update_order`. -/
def update_order (ps : PriceStore) (key : Nat) (order : Order) :
    Option Unit × PriceStore :=
  match alGet ps.order_ids key with
  | none => (none, ps)
  | some index => (some (), { ps with orders := ps.orders.set index (some order) })

/-- `PriceStore::try_get`. -/
def try_get (ps : PriceStore) (order_id : Nat) : Except Error Order :=
  match alGet ps.order_ids order_id with
  | none => .error .PriceStoreInvalidIndex
  | some index =>
    match (ps.orders.get? index).join with
    | none => .error .PriceStoreOrderNotFoundByIndex
    | some o => .ok o

/-- `PriceStore::iter`: surviving orders in slot (= insertion) order. -/
def iter (ps : PriceStore) : List Order :=
  ps.orders.filterMap id

end PriceStore

/-- Soroban `Vec::binary_search` as used on the (always sorted, invariant
`WFStore`) `levels_price` vector: `.inl i` when `l[i] = x`, `.inr i` with the
insertion point otherwise.  On sorted duplicate-free input every binary
search returns exactly this; the linear formulation is used for ease of
proof.  (Soroban documents the result on unsorted input as unspecified.) -/
def searchSorted (l : List Nat) (x : Nat) : Sum Nat Nat :=
  match l with
  | [] => .inr 0
  | a :: rest =>
    if x < a then .inr 0
    else if x = a then .inl 0
    else
      match searchSorted rest x with
      | .inl i => .inl (i + 1)
      | .inr i => .inr (i + 1)

/-- `price_level_store.rs::PriceLevelStore`: parallel arrays of levels and
their prices, sorted ascending by price. -/
structure PriceLevelStore where
  levels : List PriceStore
  levels_price : List Nat
  deriving DecidableEq, Repr

namespace PriceLevelStore

/-- `PriceLevelStore::new`. -/
def new : PriceLevelStore := { levels := [], levels_price := [] }

/-- `PriceLevelStore::iter_levels` (ascending). -/
def iter_levels (s : PriceLevelStore) : List PriceStore := s.levels

/-- `PriceLevelStore::iter_levels_rev` (descending). -/
def iter_levels_rev (s : PriceLevelStore) : List PriceStore := s.levels.reverse

/-- `PriceLevelStore::push_order`. -/
def push_order (s : PriceLevelStore) (order : NewAccountOrder) :
    Nat × PriceLevelStore :=
  match searchSorted s.levels_price order.price with
  | .inl index =>
    match s.levels.get? index with
    | some price_node =>
      let (order_id, price_node) := price_node.add_order order
      (order_id, { s with levels := s.levels.set index price_node })
    | none => (0, s)  -- unreachable: a found index is within bounds
  | .inr index =>
    let price_node := PriceStore.new order.price
    let (order_id, price_node) := price_node.add_order order
    (order_id,
      { levels_price := s.levels_price.insertIdx index order.price
        levels := s.levels.insertIdx index price_node })

/-- `PriceLevelStore::update_order`.  The source ignores the inner
`PriceStore::update_order` result and reports `Some(())` whenever the price
level exists. -/
def update_order (s : PriceLevelStore) (price_id : PriceLevelId)
    (order : Order) : Option Unit × PriceLevelStore :=
  match searchSorted s.levels_price price_id.price with
  | .inr _ => (none, s)
  | .inl index =>
    match s.levels.get? index with
    | none => (none, s)
    | some price_level =>
      let (_, price_level) := price_level.update_order price_id.id order
      (some (), { s with levels := s.levels.set index price_level })

/-- `PriceLevelStore::remove_order`. -/
def remove_order (s : PriceLevelStore) (price : Nat) (order_id : Nat) :
    Except Error (Order × PriceLevelStore) :=
  match searchSorted s.levels_price price with
  | .inr _ => .error .LevelsStorePriceNotFound
  | .inl index =>
    match s.levels.get? index with
    | none => .error .LevelsStoreLevelNotFound
    | some price_level_node =>
      match price_level_node.remove_order order_id with
      | (none, _) => .error .LevelsStoreRemoveFailed
      | (some order, price_level_node) =>
        if price_level_node.is_empty then
          .ok (order,
            { levels := s.levels.eraseIdx index
              levels_price := s.levels_price.eraseIdx index })
        else
          .ok (order, { s with levels := s.levels.set index price_level_node })

/-- `PriceLevelStore::try_get`. -/
def try_get (s : PriceLevelStore) (price : Nat) (order_id : Nat) :
    Except Error Order :=
  match searchSorted s.levels_price price with
  | .inr _ => .error .LevelsStorePriceNotFound
  | .inl index =>
    match s.levels.get? index with
    | none => .error .LevelsStoreLevelNotFound
    | some price_level_node => price_level_node.try_get order_id

end PriceLevelStore

/-- `orderbook.rs::OrderBook`. -/
structure OrderBook where
  buy_orders : PriceLevelStore
  sell_orders : PriceLevelStore
  deriving DecidableEq, Repr

namespace OrderBook

/-- `OrderBook::new`. -/
def new : OrderBook := { buy_orders := .new, sell_orders := .new }

/-- `OrderBook::add_buy_order`. -/
def add_buy_order (b : OrderBook) (order : NewAccountOrder) :
    OrderBookId × OrderBook :=
  let price := order.price
  let (key, buy_orders) := b.buy_orders.push_order order
  (OrderBookId.buy_id price key, { b with buy_orders := buy_orders })

/-- `OrderBook::add_sell_order`. -/
def add_sell_order (b : OrderBook) (order : NewAccountOrder) :
    OrderBookId × OrderBook :=
  let price := order.price
  let (key, sell_orders) := b.sell_orders.push_order order
  (OrderBookId.sell_id price key, { b with sell_orders := sell_orders })

/-- `OrderBook::try_get`. -/
def try_get (b : OrderBook) (order_book_id : OrderBookId) :
    Except Error Order :=
  match order_book_id with
  | .BuyId plid => b.buy_orders.try_get plid.price plid.id
  | .SellId plid => b.sell_orders.try_get plid.price plid.id

/-- `OrderBook::remove_order`. -/
def remove_order (b : OrderBook) (order_book_id : OrderBookId) :
    Except Error (Order × OrderBook) :=
  match order_book_id with
  | .BuyId plid =>
    (b.buy_orders.remove_order plid.price plid.id).map
      (fun p => (p.1, { b with buy_orders := p.2 }))
  | .SellId plid =>
    (b.sell_orders.remove_order plid.price plid.id).map
      (fun p => (p.1, { b with sell_orders := p.2 }))

/-- `OrderBook::update_order`. -/
def update_order (b : OrderBook) (order_id : OrderBookId) (order : Order) :
    Option Unit × OrderBook :=
  match order_id with
  | .BuyId plid =>
    let (r, s) := b.buy_orders.update_order plid order
    (r, { b with buy_orders := s })
  | .SellId plid =>
    let (r, s) := b.sell_orders.update_order plid order
    (r, { b with sell_orders := s })

/-- One price level of `OrderBook::maker_orders_iter`: each surviving order
of the level tagged with its `OrderBookId`. -/
def levelEntries (side : OrderSide) (level : PriceStore) :
    List (OrderBookId × Order) :=
  level.iter.map (fun order =>
    match side with
    | .BUY => (OrderBookId.buy_id level.price order.order_id, order)
    | .SELL => (OrderBookId.sell_id level.price order.order_id, order))

/-- `OrderBook::maker_orders_iter`: for buys the levels descending (best bid
first), for sells ascending (best ask first); inside a level insertion
order. -/
def maker_orders_iter (b : OrderBook) (maker_side : OrderSide) :
    List (OrderBookId × Order) :=
  match maker_side with
  | .BUY => (b.buy_orders.iter_levels_rev).flatMap (levelEntries .BUY)
  | .SELL => (b.sell_orders.iter_levels).flatMap (levelEntries .SELL)

/-- `OrderBook::best_buy_price`. -/
def best_buy_price (b : OrderBook) : Option Nat :=
  (b.maker_orders_iter .BUY).head?.map (fun p => p.2.price)

/-- `OrderBook::best_sell_price`. -/
def best_sell_price (b : OrderBook) : Option Nat :=
  (b.maker_orders_iter .SELL).head?.map (fun p => p.2.price)

end OrderBook

end Clob

namespace Clob

/-! ### `trading_ops.rs`: two-phase matching -/

/-- `trading_ops.rs::FillStatus`. -/
inductive FillStatus where
  | Complete
  | Partial
  | NoFill
  deriving DecidableEq, Repr

/-- `trading_ops.rs::MakerFill`. -/
structure MakerFill where
  oix : OrderBookId
  maker_order : Order
  fill_type : FillStatus
  fill_amount : Nat
  deriving DecidableEq, Repr

/-- `trading_ops.rs::PendingFill`. -/
structure PendingFill where
  taker_order : NewOrder
  maker_fills : List MakerFill
  taker_fill_status : FillStatus
  deriving DecidableEq, Repr

/-- The maker loop of `fill_order`, in recursive form.  The walk returns the
fills it recorded, the taker status as last written inside the loop
(`.NoFill` exactly when no iteration wrote it, its initialisation in the
source), and the remaining taker quantity.  A maker violating the taker's
limit price is skipped (`continue`); `fill_amount` is
`min(maker.quantity, taker_rem_q)`; on `taker_rem_q == fill_amount` the
status becomes `Complete` and the walk stops, otherwise the status becomes
`Partial` and the quantity decreases. -/
def fillLoop (taker : NewOrder) (side : OrderSide) (order_type : OrderType) :
    List (OrderBookId × Order) → Nat → List MakerFill × FillStatus × Nat
  | [], rem => ([], .NoFill, rem)
  | (oix, order) :: rest, rem =>
    if order_type = OrderType.Limit ∧
        ((side = OrderSide.BUY ∧ order.price > taker.price) ∨
         (side = OrderSide.SELL ∧ order.price < taker.price)) then
      fillLoop taker side order_type rest rem
    else
      let fill_amount := if order.quantity ≤ rem then order.quantity else rem
      let fill_type : FillStatus :=
        if fill_amount = order.quantity then .Complete else .Partial
      let fill : MakerFill :=
        { oix := oix, maker_order := order, fill_type := fill_type
          fill_amount := fill_amount }
      if rem = fill_amount then ([fill], .Complete, 0)
      else
        let (fills, st, rem') :=
          fillLoop taker side order_type rest (rem - fill_amount)
        (fill :: fills, (if st = FillStatus.NoFill then .Partial else st), rem')

/-- `trading_ops.rs::fill_order` (phase 1, planning): walk the opposite
side's makers and assemble a `PendingFill`; afterwards a taker that consumed
nothing is reset to the `None` status. -/
def fill_order (orderbook : OrderBook) (taker : NewOrder) (side : OrderSide)
    (order_type : OrderType) : PendingFill :=
  let maker_side := match side with
    | .BUY => OrderSide.SELL
    | .SELL => OrderSide.BUY
  let (maker_fills, st, taker_rem_q) :=
    fillLoop taker side order_type (orderbook.maker_orders_iter maker_side)
      taker.quantity
  let taker_fill_status := if taker_rem_q = taker.quantity then .NoFill else st
  { taker_order := taker, maker_fills := maker_fills
    taker_fill_status := taker_fill_status }

/-- The commit loop of `finalize_matching` over the planned fills, threading
`(book, taker remaining quantity, committed maker orders)`. -/
def finalizeLoop (book : OrderBook) (rem : Nat) (makers : List Order) :
    List MakerFill → Except Error (OrderBook × Nat × List Order)
  | [] => .ok (book, rem, makers)
  | fill :: rest =>
    match fill.fill_type with
    | .Complete =>
      match book.remove_order fill.oix with
      | .error e => .error e
      | .ok (maker_order, book) =>
        if maker_order = fill.maker_order then
          finalizeLoop book (rem - maker_order.quantity)
            (makers ++ [maker_order]) rest
        else .error .panicked
    | .Partial =>
      match book.try_get fill.oix with
      | .error e => .error e
      | .ok maker_order =>
        if maker_order = fill.maker_order then
          if rem < maker_order.quantity then
            let maker_order := { maker_order with
                                 quantity := maker_order.quantity - rem }
            match book.update_order fill.oix maker_order with
            | (none, _) => .error .InvalidIdFailedToUpdate
            | (some _, book) =>
              let maker_order_fill := { fill.maker_order with
                quantity := fill.maker_order.quantity - maker_order.quantity }
              finalizeLoop book 0 (makers ++ [maker_order_fill]) rest
          else .error .panicked
        else .error .panicked
    | .NoFill => .error .panicked

/-- `trading_ops.rs::finalize_matching` (phase 2, commit): re-check every
planned order still exists, apply complete removals and partial decrements,
check the quantity accounting against the planned taker status, and return
the leftover taker order (if any) with the filled maker orders. -/
def finalize_matching (order_book : OrderBook) (pending_fill : PendingFill) :
    Except Error (FillStatus × Option NewOrder × List Order × OrderBook) :=
  if (pending_fill.maker_fills.all
      (fun fill => (order_book.try_get fill.oix).toOption.isSome)) then
    match finalizeLoop order_book pending_fill.taker_order.quantity []
        pending_fill.maker_fills with
    | .error e => .error e
    | .ok (book, taker_order_remaining_quantity, maker_orders) =>
      let statusOk : Bool :=
        match pending_fill.taker_fill_status with
        | .Complete => taker_order_remaining_quantity = 0
        | .Partial =>
          pending_fill.taker_order.quantity > taker_order_remaining_quantity
        | .NoFill =>
          taker_order_remaining_quantity = pending_fill.taker_order.quantity
      if statusOk then
        let taker_order :=
          if taker_order_remaining_quantity > 0 then
            some { pending_fill.taker_order with
                   quantity := taker_order_remaining_quantity }
          else none
        .ok (pending_fill.taker_fill_status, taker_order, maker_orders, book)
      else .error .panicked
  else .error .InvalidOrderId

/-- `trading_ops.rs::place_order`: plan, commit, and insert any leftover
taker quantity as a resting order on its own side (GoodTillCancel). -/
def place_order (order_book : OrderBook) (order_type : OrderType)
    (side : OrderSide) (order : NewOrder) (account : Nat) :
    Except Error (Option (OrderBookId × NewOrder) × List Order × OrderBook) :=
  let pending_fill := fill_order order_book order side order_type
  match finalize_matching order_book pending_fill with
  | .error e => .error e
  | .ok (_, taker_order, maker_orders, order_book) =>
    match taker_order with
    | some order =>
      let new_account_order := order.into_order account
      let (order_id, order_book) :=
        match side with
        | .BUY => order_book.add_buy_order new_account_order
        | .SELL => order_book.add_sell_order new_account_order
      .ok (some (order_id, order), maker_orders, order_book)
    | none => .ok (none, maker_orders, order_book)

/-! ### `lib.rs`: payoff arithmetic and the contract entry points -/

/-- `lib.rs::multiply_price_and_quantity` (and its copy in
`payoff_sides.rs`): `(price * quantity) as i128 / 10_i128.pow(decimals)`.
The `u128` product is taken modulo `2 ^ 128` (whether an overflowing
multiplication traps or wraps depends on the build profile; every statement
below stays strictly below `2 ^ 128`, where both semantics agree), the cast
to `i128` reinterprets the high bit as sign, and Rust's `i128` division
truncates toward zero (`Int.tdiv`).  No overflow detection of any kind is
performed by the source. -/
def multiply_price_and_quantity (price quantity : Nat) (decimals : Nat) : Int :=
  let prod : Nat := (price * quantity) % 2 ^ 128
  let asI128 : Int :=
    if prod < 2 ^ 127 then (prod : Int) else (prod : Int) - 2 ^ 128
  asI128.tdiv ((10 : Int) ^ decimals)

/-- `lib.rs::return_quantity`. -/
def return_quantity (_price quantity : Nat) (_decimals : Nat) : Int :=
  (quantity : Int)

/-- `lib.rs::PayOffWithSides` (the in-crate copy used by the contract's
`create_order`): the side-dependent token roles and calculation functions. -/
structure PayOffWithSides where
  token_to_withdraw : Nat
  token_to_receive : Nat
  withdraw_calculation_func : Nat → Nat → Nat → Int
  receive_calculation_func : Nat → Nat → Nat → Int
  base_token_decimals : Nat

namespace PayOffWithSides

/-- `PayOffWithSides::create`. -/
def create (side : OrderSide) (trading_pair : Nat × Nat)
    (base_token_decimals : Nat) : PayOffWithSides :=
  match side with
  | .BUY =>
    { token_to_withdraw := trading_pair.2
      token_to_receive := trading_pair.1
      withdraw_calculation_func := multiply_price_and_quantity
      receive_calculation_func := return_quantity
      base_token_decimals := base_token_decimals }
  | .SELL =>
    { token_to_withdraw := trading_pair.1
      token_to_receive := trading_pair.2
      withdraw_calculation_func := return_quantity
      receive_calculation_func := multiply_price_and_quantity
      base_token_decimals := base_token_decimals }

def taker_withdraw_token (p : PayOffWithSides) : Nat := p.token_to_withdraw

def taker_receive_token (p : PayOffWithSides) : Nat := p.token_to_receive

def maker_withdraw_token (p : PayOffWithSides) : Nat := p.token_to_receive

def maker_receive_token (p : PayOffWithSides) : Nat := p.token_to_withdraw

def taker_withdraw_amount (p : PayOffWithSides) (price quantity : Nat) : Int :=
  p.withdraw_calculation_func price quantity p.base_token_decimals

def maker_withdraw_amount (p : PayOffWithSides) (price quantity : Nat) : Int :=
  p.receive_calculation_func price quantity p.base_token_decimals

def taker_receive_amount (p : PayOffWithSides) (price quantity : Nat) : Int :=
  p.receive_calculation_func price quantity p.base_token_decimals

def maker_receive_amount (p : PayOffWithSides) (price quantity : Nat) : Int :=
  p.withdraw_calculation_func price quantity p.base_token_decimals

end PayOffWithSides

/-- `user_balance_manager.rs::UserBalances` of the orderbook contract. -/
structure UserBalances where
  balance : Int
  balance_in_trading : Int
  deriving DecidableEq, Repr

/-- The persistent per-(user, token) balance store of the orderbook
contract; absent entries read as zeroes
(`UserBalanceManager::read_user_balance`). -/
def Balances : Type := Nat → Nat → UserBalances

def Balances.read (bal : Balances) (user token : Nat) : UserBalances :=
  bal user token

def Balances.write (bal : Balances) (user token : Nat) (v : UserBalances) :
    Balances :=
  fun u t => if u = user ∧ t = token then v else bal u t

/-- `lib.rs::pay_off_with_makers`: for every filled maker order release the
reserved (in-trading) withdraw amount and credit the received amount. -/
def pay_off_with_makers (pay : PayOffWithSides) (maker_orders : List Order)
    (bal : Balances) : Balances :=
  maker_orders.foldl
    (fun bal order =>
      let wtok := pay.maker_withdraw_token
      let wb := bal.read order.account wtok
      let withdraw_amount := pay.maker_withdraw_amount order.price order.quantity
      let bal := bal.write order.account wtok
        { wb with balance_in_trading := wb.balance_in_trading - withdraw_amount }
      let rtok := pay.maker_receive_token
      let rb := bal.read order.account rtok
      let receive_amount := pay.maker_receive_amount order.price order.quantity
      bal.write order.account rtok
        { rb with balance := rb.balance + receive_amount })
    bal

/-- `lib.rs::create_order` (the private function backing the public entry
point): match the order, settle the taker's balances (reserving the
unfilled remainder into `balance_in_trading`), settle the makers, and return
the new resting order's id — or the `BuyId(0, 0)` sentinel when the taker
was fully absorbed — together with the filled maker orders. -/
def create_order (order_book : OrderBook) (pay : PayOffWithSides)
    (order : NewOrder) (user : Nat) (order_type : OrderType)
    (side : OrderSide) (bal : Balances) :
    Except Error ((OrderBookId × List Order) × OrderBook × Balances) :=
  match place_order order_book order_type side order user with
  | .error e => .error e
  | .ok (taker_order, maker_orders, order_book) =>
    let total_filled_quantity :=
      (maker_orders.map (fun o => o.quantity)).sum
    let total_withdraw_amount :=
      (maker_orders.map
        (fun o => pay.taker_withdraw_amount o.price o.quantity)).sum
    let total_receive_amount :=
      (maker_orders.map
        (fun o => pay.taker_receive_amount o.price o.quantity)).sum
    let wtok := pay.taker_withdraw_token
    let withdraw_balances := bal.read user wtok
    let withdraw_balances :=
      { withdraw_balances with
        balance := withdraw_balances.balance - total_withdraw_amount }
    let rtok := pay.taker_receive_token
    let receiving_balances := bal.read user rtok
    let bal := bal.write user rtok
      { receiving_balances with
        balance := receiving_balances.balance + total_receive_amount }
    let withdraw_balances :=
      if total_filled_quantity < order.quantity then
        let not_filled_withdraw_amount :=
          pay.taker_withdraw_amount order.price
            (order.quantity - total_filled_quantity)
        { withdraw_balances with
          balance := withdraw_balances.balance - not_filled_withdraw_amount
          balance_in_trading :=
            withdraw_balances.balance_in_trading + not_filled_withdraw_amount }
      else withdraw_balances
    let bal := bal.write user wtok withdraw_balances
    let bal := pay_off_with_makers pay maker_orders bal
    let returned_id :=
      match taker_order with
      | some el => el.1
      | none => OrderBookId.buy_id 0 0
    .ok ((returned_id, maker_orders), order_book, bal)

/-- `lib.rs::cancel_order` (the public entry point's core, after auth and
book loading): remove the order, and on success return the reserved amount
from `balance_in_trading` to `balance` using the side's withdraw
calculation over the base token's decimals. -/
def cancel_order (order_book : OrderBook) (trading_pair : Nat × Nat)
    (base_token_decimals : Nat) (order_id : OrderBookId) (user : Nat)
    (bal : Balances) : Except Error (Order × OrderBook × Balances) :=
  match order_book.remove_order order_id with
  | .error e => .error e
  | .ok (order, order_book) =>
    let (token_to_return, calcFn) :=
      match order_id with
      | .BuyId _ => (trading_pair.2, multiply_price_and_quantity)
      | .SellId _ => (trading_pair.1, return_quantity)
    let balances := bal.read user token_to_return
    let token_trading_amount :=
      calcFn order.price order.quantity base_token_decimals
    let balances :=
      { balances with
        balance := balances.balance + token_trading_amount
        balance_in_trading := balances.balance_in_trading - token_trading_amount }
    let bal := bal.write user token_to_return balances
    .ok (order, order_book, bal)

end Clob

/-! ## The `asset-manager` custody contract -/

namespace AM

/-- Error codes of `asset-manager/src/error.rs`.  The source additionally
refers to `ErrBatchIdNotMatch` (`operator_handlers.rs`) and
`ErrTradeSymbolsNotMatch` (`types/trade_upload.rs`), which the error
enumeration in the snapshot omits; both are carried here as the abort codes
those call sites raise. -/
inductive Error where
  | ErrFinalized
  | ErrSameValueStored
  | ErrChangingPair
  | ErrSamePairTokens
  | ErrAmountMustBePositive
  | ErrTokenIsNotListed
  | ErrBalanceNotEnough
  | ErrAlreadyInitialized
  | ErrNotInitialized
  | ErrNoUserPublicKeyExist
  | ErrPublicKeyAlreadyExist
  | ErrWithdrawDataNotExist
  | ErrSameWithdrawDataExist
  | ErrWithdrawRequestAlreadyProcessed
  | ErrWithdrawRequestDataMismatch
  | ErrBatchIdNotMatch
  | ErrTradeSymbolsNotMatch
  deriving DecidableEq, Repr

/-- `storage_types/mod.rs::ListingStatus`. -/
inductive ListingStatus where
  | Listed
  | Delisted
  deriving DecidableEq, Repr

/-- `storage_types/user_balance_manager.rs::UserBalances` (custody side:
spendable balance and the reserved-for-withdraw portion). -/
structure UserBalances where
  balance : Int
  balance_on_withdraw : Int
  deriving DecidableEq, Repr

/-- `storage_types/mod.rs::WithdrawStatus`. -/
inductive WithdrawStatus where
  | Requested
  | Rejected
  | Executed
  deriving DecidableEq, Repr

/-- `storage_types/mod.rs::WithdrawData`. -/
structure WithdrawData where
  user : Nat
  token : Nat
  amount : Int
  status : WithdrawStatus
  deriving DecidableEq, Repr

/-- `storage_types/pair_manager.rs::PairStorageInfo`. -/
structure PairStorageInfo where
  token1 : Nat
  token2 : Nat
  status : ListingStatus
  deriving DecidableEq, Repr

/-- `types/mod.rs::OperatorWithdrawStatus`. -/
inductive OperatorWithdrawStatus where
  | Approve
  | Reject
  deriving DecidableEq, Repr

/-- `types/mod.rs::ExecutionWithdrawData`. -/
structure ExecutionWithdrawData where
  id : Nat
  user : Nat
  token : Nat
  amount : Int
  execution_status : OperatorWithdrawStatus
  deriving DecidableEq, Repr

/-- `types/trade_upload.rs::TradeUploadUnit`.  The Ed25519 signature fields
(`order_signature`, `pub_key_id`, `order`) are verified against the user's
announced key by the external cryptographic verifier, an external
collaborator of the contract (spec §1); the claims under check do not bear
on them and they are omitted from the embedding. -/
structure TradeUploadUnit where
  trade_id : Nat
  account : Nat
  symbol : Nat
  quantity : Int
  amount : Int
  fee_amount : Int
  fee_token_asset : Nat
  timestamp : Nat
  deriving DecidableEq, Repr

/-- `types/trade_upload.rs::TradeUploadPair`. -/
structure TradeUploadPair where
  buy_side : TradeUploadUnit
  sell_side : TradeUploadUnit
  deriving DecidableEq, Repr

/-- `types/trade_upload.rs::TradeUploadData`. -/
structure TradeUploadData where
  batch_id : Nat
  trades : List TradeUploadPair
  deriving DecidableEq, Repr

/-- `types/trade_upload.rs::PurchaseSide`. -/
inductive PurchaseSide where
  | Buy
  | Sell
  deriving DecidableEq, Repr

/-- The durable state of the custody contract: per-(user, token) balances
(absent entries read as zeroes), the pair registry keyed by symbol, the
withdraw-request store, the two instance counters, and the fee-collector
address.  After `initialize` both counters hold 1. -/
structure State where
  balances : Nat → Nat → UserBalances
  pairs : Nat → Option PairStorageInfo
  withdraw_requests : Nat → Option WithdrawData
  withdraw_id : Nat
  batch_id : Nat
  fee_collector : Nat

/-- `UserBalanceManager::read_user_balance`: zero-initialised on absence. -/
def State.readBalance (s : State) (user token : Nat) : UserBalances :=
  s.balances user token

/-- `UserBalanceManager::write_user_balance`. -/
def State.writeBalance (s : State) (user token : Nat) (v : UserBalances) :
    State :=
  { s with balances := fun u t => if u = user ∧ t = token then v else s.balances u t }

/-- `storage_types/withdraw_request_manager.rs::write_withdraw_request`:
rewriting a record with identical contents aborts. -/
def State.writeWithdrawRequest (s : State) (id : Nat) (data : WithdrawData) :
    Except Error State :=
  match s.withdraw_requests id with
  | some stored =>
    if stored = data then .error .ErrSameWithdrawDataExist
    else .ok { s with withdraw_requests := fun i =>
                 if i = id then some data else s.withdraw_requests i }
  | none => .ok { s with withdraw_requests := fun i =>
                   if i = id then some data else s.withdraw_requests i }

/-- `pair_manager.rs::get_pair`: returns the stored token pair, aborting
with `ErrFinalized` when no pair is stored under the symbol.  The stored
`ListingStatus` is not inspected. -/
def State.get_pair (s : State) (symbol : Nat) : Except Error (Nat × Nat) :=
  match s.pairs symbol with
  | some info => .ok (info.token1, info.token2)
  | none => .error .ErrFinalized

/-- `types/trade_upload.rs::execute_trade`: credit the deposit token, then
debit the transfer token requiring sufficient spendable balance, with the
side mapping Buy ↦ (transfer token2/amount, deposit token1/quantity) and
Sell ↦ (transfer token1/quantity, deposit token2/amount). -/
def execute_trade (s : State) (trade : TradeUploadUnit) (pair : Nat × Nat)
    (side : PurchaseSide) : Except Error State :=
  let (token_transfer, token_transfer_amount, token_deposit,
       token_deposit_amount) :=
    match side with
    | .Buy => (pair.2, trade.amount, pair.1, trade.quantity)
    | .Sell => (pair.1, trade.quantity, pair.2, trade.amount)
  let db := s.readBalance trade.account token_deposit
  let s := s.writeBalance trade.account token_deposit
    { db with balance := db.balance + token_deposit_amount }
  let tb := s.readBalance trade.account token_transfer
  if tb.balance ≥ token_transfer_amount then
    .ok (s.writeBalance trade.account token_transfer
      { tb with balance := tb.balance - token_transfer_amount })
  else .error .ErrBalanceNotEnough

/-- `types/trade_upload.rs::withdraw_fee`: move the unit's `fee_amount` of
`fee_token_asset` from the trading account to the fee collector (a no-op
when the fee is zero, requiring sufficient balance otherwise). -/
def withdraw_fee (s : State) (trade : TradeUploadUnit) : Except Error State :=
  if trade.fee_amount = 0 then .ok s
  else
    let ub := s.readBalance trade.account trade.fee_token_asset
    if ub.balance ≥ trade.fee_amount then
      let s := s.writeBalance trade.account trade.fee_token_asset
        { ub with balance := ub.balance - trade.fee_amount }
      let fb := s.readBalance s.fee_collector trade.fee_token_asset
      .ok (s.writeBalance s.fee_collector trade.fee_token_asset
        { fb with balance := fb.balance + trade.fee_amount })
    else .error .ErrBalanceNotEnough

/-- `types/trade_upload.rs::execute_pair_swap`: require equal symbols, look
the pair up (existence only), then buy-side trade, buy-side fee, sell-side
trade, sell-side fee. -/
def execute_pair_swap (s : State) (tp : TradeUploadPair) :
    Except Error State :=
  if tp.buy_side.symbol = tp.sell_side.symbol then
    match s.get_pair tp.buy_side.symbol with
    | .error e => .error e
    | .ok pair =>
      match execute_trade s tp.buy_side pair .Buy with
      | .error e => .error e
      | .ok s =>
        match withdraw_fee s tp.buy_side with
        | .error e => .error e
        | .ok s =>
          match execute_trade s tp.sell_side pair .Sell with
          | .error e => .error e
          | .ok s => withdraw_fee s tp.sell_side
  else .error .ErrTradeSymbolsNotMatch

/-- The `for trade_pair in trade_data.trades` loop of
`process_trades_batch`. -/
def swapLoop (s : State) : List TradeUploadPair → Except Error State
  | [] => .ok s
  | tp :: rest =>
    match execute_pair_swap s tp with
    | .error e => .error e
    | .ok s => swapLoop s rest

/-- `operator_handlers.rs::process_trades_batch`: the submitted `batch_id`
must equal the stored one (`ErrBatchIdNotMatch`), every pair is swapped in
vector order, and the stored batch id is incremented by one. -/
def process_trades_batch (s : State) (trade_data : TradeUploadData) :
    Except Error State :=
  if trade_data.batch_id = s.batch_id then
    match swapLoop s trade_data.trades with
    | .error e => .error e
    | .ok s => .ok { s with batch_id := s.batch_id + 1 }
  else .error .ErrBatchIdNotMatch

/-- `operator_handlers.rs::process_withdraw_request`: the record must exist
and still be `Requested`, its data must match, and then an Approve debits
`balance_on_withdraw` (requiring sufficiency; the token transfer to the
user is the external token contract's effect) while a Reject moves the
amount back to the spendable balance. -/
def process_withdraw_request (s : State) (wd : ExecutionWithdrawData) :
    Except Error State :=
  match s.withdraw_requests wd.id with
  | none => .error .ErrWithdrawDataNotExist
  | some withdraw_request =>
    if withdraw_request.status = WithdrawStatus.Requested then
      if withdraw_request.user = wd.user ∧ withdraw_request.token = wd.token ∧
          withdraw_request.amount = wd.amount then
        let balances := s.readBalance wd.user wd.token
        match wd.execution_status with
        | .Approve =>
          if balances.balance_on_withdraw ≥ wd.amount then
            let balances := { balances with
              balance_on_withdraw := balances.balance_on_withdraw - wd.amount }
            let withdraw_request :=
              { withdraw_request with status := WithdrawStatus.Executed }
            let s := s.writeBalance wd.user wd.token balances
            s.writeWithdrawRequest wd.id withdraw_request
          else .error .ErrBalanceNotEnough
        | .Reject =>
          let balances := { balances with
            balance_on_withdraw := balances.balance_on_withdraw - wd.amount
            balance := balances.balance + wd.amount }
          let withdraw_request :=
            { withdraw_request with status := WithdrawStatus.Rejected }
          let s := s.writeBalance wd.user wd.token balances
          s.writeWithdrawRequest wd.id withdraw_request
      else .error .ErrWithdrawRequestDataMismatch
    else .error .ErrWithdrawRequestAlreadyProcessed

/-- `lib.rs::request_withdraw` (custody): positive amount, sufficient
spendable balance; moves the amount into `balance_on_withdraw`, allocates
`id = WithdrawId++` and records a `Requested` withdraw.  Returns the new
id.  (The incoming token transfer was already done at deposit time; the
user auth check is the host's.) -/
def request_withdraw (s : State) (user token : Nat) (amount : Int) :
    Except Error (Nat × State) :=
  if amount > 0 then
    let balances := s.readBalance user token
    if balances.balance ≥ amount then
      let balances := { balances with
        balance := balances.balance - amount
        balance_on_withdraw := balances.balance_on_withdraw + amount }
      let s := s.writeBalance user token balances
      let new_id := s.withdraw_id
      let s := { s with withdraw_id := s.withdraw_id + 1 }
      let withdraw_request_data : WithdrawData :=
        { token := token, amount := amount
          status := WithdrawStatus.Requested, user := user }
      match s.writeWithdrawRequest new_id withdraw_request_data with
      | .error e => .error e
      | .ok s => .ok (new_id, s)
    else .error .ErrBalanceNotEnough
  else .error .ErrAmountMustBePositive

end AM

namespace Clob

/-! ## Claim C2: precision arithmetic -/

set_option maxRecDepth 100000 in
/-- C2 (code_bug evidence): the spec requires overflow of `price·quantity`
to be detected and to fail with `IncorrectPrecisionCalculation`, but
`multiply_price_and_quantity` performs no detection whatsoever: its result
type is a plain `i128` with no error path, and at
`price = 2^127, quantity = 1, decimals = 0` — where the `u128` product is
exact, so both trap-on-overflow and wrap-on-overflow builds agree — the
`as i128` cast wraps the amount to the negative value `-2^127`. -/
theorem multiply_price_and_quantity_overflow_undetected :
    multiply_price_and_quantity (2 ^ 127) 1 0 = -(2 ^ 127) ∧
    multiply_price_and_quantity (2 ^ 127) 1 0 < 0 := by
  constructor
  · rfl
  · decide

/-! ## Claim C4: the partial-fill-across-two-levels scenario -/

/-- Scenario 2's book: resting sells of 40 at 50 (account 7) and 60 at 55
(account 8). -/
def c4Book : OrderBook :=
  ((OrderBook.new.add_sell_order
      { quantity := 40, price := 50, fee_amount := 1, fee_token_asset := 99
        account := 7 }).2.add_sell_order
      { quantity := 60, price := 55, fee_amount := 1, fee_token_asset := 99
        account := 8 }).2

/-- Scenario 2's taker: a market buy of quantity 80. -/
def c4Taker : NewOrder :=
  { quantity := 80, price := 0, fee_amount := 1, fee_token_asset := 99 }

/-- The book after the scenario: only the sell level at 55 survives, its one
order reduced to quantity 20. -/
def c4BookAfter : OrderBook :=
  { buy_orders := { levels := [], levels_price := [] }
    sell_orders :=
      { levels := [{ price := 55, orders_id_counter := 1
                     orders := [some { order_id := 1, account := 8
                                       quantity := 20, price := 55
                                       fee_amount := 1, fee_token_asset := 99 }]
                     order_ids := [(1, 0)] }]
        levels_price := [55] } }

/-- C4: on sells {40@50, 60@55} a market buy of 80 plans a Complete fill of
40 at 50 and a Partial fill of 40 at 55, fully absorbs the taker (no
resting taker order), returns those two maker fills, and leaves the sell at
55 with quantity 20. -/
theorem partial_fill_two_levels_scenario :
    (fill_order c4Book c4Taker .BUY .Market).maker_fills.map
        (fun f => (f.fill_type, f.fill_amount, f.maker_order.price)) =
      [(FillStatus.Complete, 40, 50), (FillStatus.Partial, 40, 55)] ∧
    (fill_order c4Book c4Taker .BUY .Market).taker_fill_status =
      FillStatus.Complete ∧
    place_order c4Book .Market .BUY c4Taker 5 =
      .ok (none,
        [{ order_id := 1, account := 7, quantity := 40, price := 50
           fee_amount := 1, fee_token_asset := 99 },
         { order_id := 1, account := 8, quantity := 40, price := 55
           fee_amount := 1, fee_token_asset := 99 }], c4BookAfter) ∧
    c4BookAfter.try_get (OrderBookId.sell_id 55 1) =
      .ok { order_id := 1, account := 8, quantity := 20, price := 55
            fee_amount := 1, fee_token_asset := 99 } := by
  refine ⟨by decide, by decide, by rfl, by rfl⟩

/-! ## Claim C10: the sentinel id returned on a complete fill -/

/-- C10: whenever the matching left no taker remainder (`place_order`
returned `none`), the contract-level `create_order` reports the sentinel
`BuyId(PriceLevelId { price: 0, id: 0 })` — a value of the same shape as a
genuine buy-order id — alongside the filled maker orders, rather than
signalling the absence of a new order id. -/
theorem create_order_full_fill_sentinel (order_book : OrderBook)
    (pay : PayOffWithSides) (order : NewOrder) (user : Nat)
    (order_type : OrderType) (side : OrderSide) (bal : Balances)
    (makers : List Order) (book' : OrderBook)
    (h : place_order order_book order_type side order user =
      .ok (none, makers, book')) :
    ∃ bal', create_order order_book pay order user order_type side bal =
      .ok ((OrderBookId.BuyId { price := 0, id := 0 }, makers),
        book', bal') := by
  unfold create_order
  rw [h]
  exact ⟨_, rfl⟩

/-- All-zero balance store. -/
def zeroBalances : Balances := fun _ _ => { balance := 0, balance_in_trading := 0 }

/-- Witness for C10: a market buy of 40 against a single resting sell of 40
is fully absorbed, and `create_order` returns the `BuyId(0, 0)` sentinel. -/
theorem create_order_full_fill_sentinel_witness :
    ∃ bal', create_order
        ((OrderBook.new.add_sell_order
          { quantity := 40, price := 50, fee_amount := 1
            fee_token_asset := 99, account := 7 }).2)
        (PayOffWithSides.create .BUY (1, 2) 0)
        { quantity := 40, price := 50, fee_amount := 1, fee_token_asset := 99 }
        5 .Market .BUY zeroBalances =
      .ok ((OrderBookId.BuyId { price := 0, id := 0 },
        [{ order_id := 1, account := 7, quantity := 40, price := 50
           fee_amount := 1, fee_token_asset := 99 }]), OrderBook.new, bal') :=
  create_order_full_fill_sentinel _ _ _ _ _ _ _ _ _ (by rfl)

end Clob

namespace AM

/-! ## Claim C7: a processed withdraw request cannot be decided again -/

/-- C7: `ExecuteWithdraw` on a record whose status is not `Requested`
aborts with `WithdrawRequestAlreadyProcessed`; the abort leaves no state
(balances and record unchanged). -/
theorem withdraw_already_processed_aborts (s : State)
    (wd : ExecutionWithdrawData) (wr : WithdrawData)
    (hrec : s.withdraw_requests wd.id = some wr)
    (hst : wr.status ≠ WithdrawStatus.Requested) :
    process_withdraw_request s wd =
      .error Error.ErrWithdrawRequestAlreadyProcessed := by
  unfold process_withdraw_request
  rw [hrec]
  simp [hst]

/-- The C7 scenario's initial state: user 11 holds 10 of token 1; fresh
counters (both 1) as written by the contract's initialisation. -/
def c7State : State :=
  { balances := fun u t =>
      if u = 11 ∧ t = 1 then { balance := 10, balance_on_withdraw := 0 }
      else { balance := 0, balance_on_withdraw := 0 }
    pairs := fun _ => none
    withdraw_requests := fun _ => none
    withdraw_id := 1, batch_id := 1, fee_collector := 99 }

/-- Witness for C7 (scenario 6): `request_withdraw` of 4 allocates id 1;
an Approve decision executes it; the subsequent Reject decision for the
same id and amount aborts with `WithdrawRequestAlreadyProcessed`. -/
theorem withdraw_already_processed_aborts_witness :
    ∃ s1 s2, request_withdraw c7State 11 1 4 = .ok (1, s1) ∧
      process_withdraw_request s1
        { id := 1, user := 11, token := 1, amount := 4
          execution_status := .Approve } = .ok s2 ∧
      process_withdraw_request s2
        { id := 1, user := 11, token := 1, amount := 4
          execution_status := .Reject } =
        .error Error.ErrWithdrawRequestAlreadyProcessed := by
  refine ⟨_, _, rfl, rfl, ?_⟩
  exact withdraw_already_processed_aborts _ _
    { user := 11, token := 1, amount := 4, status := WithdrawStatus.Executed }
    rfl (by decide)

/-! ## Claim C6: symbol equality and pair lookup in a trade pair -/

/-- The C6 counterexample state: the pair registry stores symbol 5 with
status `Delisted`; the participating users hold enough balance for the
swap and its fees. -/
def c6State : State :=
  { balances := fun u t =>
      if u = 11 ∧ t = 1 then { balance := 10, balance_on_withdraw := 0 }
      else if u = 11 ∧ t = 3 then { balance := 5, balance_on_withdraw := 0 }
      else if u = 12 ∧ t = 2 then { balance := 10, balance_on_withdraw := 0 }
      else if u = 12 ∧ t = 3 then { balance := 5, balance_on_withdraw := 0 }
      else { balance := 0, balance_on_withdraw := 0 }
    pairs := fun sym =>
      if sym = 5 then some { token1 := 1, token2 := 2, status := .Delisted }
      else none
    withdraw_requests := fun _ => none
    withdraw_id := 1, batch_id := 1, fee_collector := 99 }

/-- The C6 trade pair over symbol 5. -/
def c6Pair : TradeUploadPair :=
  { buy_side := { trade_id := 1, account := 12, symbol := 5, quantity := 1
                  amount := 5, fee_amount := 1, fee_token_asset := 3
                  timestamp := 0 }
    sell_side := { trade_id := 2, account := 11, symbol := 5, quantity := 1
                   amount := 5, fee_amount := 2, fee_token_asset := 3
                   timestamp := 0 } }

/-- C6 counterexample: a trade pair whose stored pair has status `Delisted`
does NOT abort — `execute_pair_swap` succeeds on it, because `get_pair`
only checks that a pair is stored and never consults the listing status. -/
theorem delisted_pair_swap_proceeds :
    (execute_pair_swap c6State c6Pair).isOk = true := by decide

/-- C6 as amended: the two checks the code does perform — the sides'
symbols must be equal (`TradeSymbolsNotMatch` otherwise) and a pair must be
stored under that symbol (`ErrFinalized` otherwise).  The lookup is
status-blind: `get_pair` succeeds with the stored tokens for every stored
status, so a `Delisted` pair does not cause an abort. -/
theorem pair_swap_symbol_and_existence_checks (s : State)
    (tp : TradeUploadPair) :
    (tp.buy_side.symbol ≠ tp.sell_side.symbol →
      execute_pair_swap s tp = .error Error.ErrTradeSymbolsNotMatch) ∧
    (tp.buy_side.symbol = tp.sell_side.symbol →
      s.pairs tp.buy_side.symbol = none →
      execute_pair_swap s tp = .error Error.ErrFinalized) ∧
    (∀ t1 t2, s.get_pair tp.buy_side.symbol = .ok (t1, t2) ↔
      ∃ st, s.pairs tp.buy_side.symbol =
        some { token1 := t1, token2 := t2, status := st }) := by
  refine ⟨fun hne => ?_, fun heq hnone => ?_, fun t1 t2 => ?_⟩
  · unfold execute_pair_swap
    simp [hne]
  · unfold execute_pair_swap State.get_pair
    rw [hnone]
    simp [heq]
  · unfold State.get_pair
    cases h : s.pairs tp.buy_side.symbol with
    | none => simp
    | some info =>
      constructor
      · intro hok
        refine ⟨info.status, ?_⟩
        cases info
        simp_all
      · rintro ⟨st, hst⟩
        cases hst
        rfl

/-- Witness for C6's amended theorem: mismatched symbols abort with
`TradeSymbolsNotMatch`; an unknown symbol aborts with `ErrFinalized`; and
the (Delisted) stored pair of `c6State` is returned by `get_pair`. -/
theorem pair_swap_symbol_and_existence_checks_witness :
    execute_pair_swap c6State
        { c6Pair with
          sell_side := { c6Pair.sell_side with symbol := 6 } } =
      .error Error.ErrTradeSymbolsNotMatch ∧
    execute_pair_swap c6State
        { buy_side := { c6Pair.buy_side with symbol := 7 }
          sell_side := { c6Pair.sell_side with symbol := 7 } } =
      .error Error.ErrFinalized ∧
    (c6State.get_pair 5 = .ok (1, 2) ↔
      ∃ st, c6State.pairs 5 =
        some { token1 := 1, token2 := 2, status := st }) := by
  refine ⟨?_, ?_, ?_⟩
  · exact (pair_swap_symbol_and_existence_checks c6State _).1 (by decide)
  · exact (pair_swap_symbol_and_existence_checks c6State _).2.1 (by decide) rfl
  · exact (pair_swap_symbol_and_existence_checks c6State c6Pair).2.2 1 2

end AM

namespace AM

/-! ## Claim C1: the trade batch's side mapping, fee routing and batch id -/

/-- The tokens of the pair stored under a symbol ((0,0) when absent; only
used where a successful lookup is known). -/
def State.pairTokens (s : State) (sym : Nat) : Nat × Nat :=
  match s.pairs sym with
  | some info => (info.token1, info.token2)
  | none => (0, 0)

/-- The net spendable-balance movement one `TradeUploadPair` causes at
account `a` and token `t`, per the claim's side mapping over the stored
pair `(token1, token2)`: the buy side is credited `quantity` of token1 and
debited `amount` of token2, the sell side is credited `amount` of token2
and debited `quantity` of token1, and each side's `fee_amount` moves from
its `fee_token_asset` balance to the fee collector's. -/
def swapDelta (pair : Nat × Nat) (fee_collector : Nat)
    (tp : TradeUploadPair) (a t : Nat) : Int :=
  (if a = tp.buy_side.account ∧ t = pair.1 then tp.buy_side.quantity else 0) +
  (if a = tp.buy_side.account ∧ t = pair.2 then -tp.buy_side.amount else 0) +
  (if a = tp.buy_side.account ∧ t = tp.buy_side.fee_token_asset then
    -tp.buy_side.fee_amount else 0) +
  (if a = fee_collector ∧ t = tp.buy_side.fee_token_asset then
    tp.buy_side.fee_amount else 0) +
  (if a = tp.sell_side.account ∧ t = pair.2 then tp.sell_side.amount else 0) +
  (if a = tp.sell_side.account ∧ t = pair.1 then -tp.sell_side.quantity else 0) +
  (if a = tp.sell_side.account ∧ t = tp.sell_side.fee_token_asset then
    -tp.sell_side.fee_amount else 0) +
  (if a = fee_collector ∧ t = tp.sell_side.fee_token_asset then
    tp.sell_side.fee_amount else 0)

/-- Everything except `balances` is untouched by a state `s'` produced from
`s` by balance writes alone. -/
def SameExceptBalances (s s' : State) : Prop :=
  s'.pairs = s.pairs ∧ s'.withdraw_requests = s.withdraw_requests ∧
  s'.withdraw_id = s.withdraw_id ∧ s'.batch_id = s.batch_id ∧
  s'.fee_collector = s.fee_collector

theorem sameExceptBalances_refl (s : State) : SameExceptBalances s s :=
  ⟨rfl, rfl, rfl, rfl, rfl⟩

theorem sameExceptBalances_trans {s1 s2 s3 : State}
    (h1 : SameExceptBalances s1 s2) (h2 : SameExceptBalances s2 s3) :
    SameExceptBalances s1 s3 := by
  obtain ⟨a1, b1, c1, d1, e1⟩ := h1
  obtain ⟨a2, b2, c2, d2, e2⟩ := h2
  exact ⟨a2.trans a1, b2.trans b1, c2.trans c1, d2.trans d1, e2.trans e1⟩

theorem writeBalance_sameExcept (s : State) (u tok : Nat) (v : UserBalances) :
    SameExceptBalances s (s.writeBalance u tok v) :=
  ⟨rfl, rfl, rfl, rfl, rfl⟩

theorem writeBalance_apply (s : State) (u tok : Nat) (v : UserBalances)
    (a t : Nat) :
    (s.writeBalance u tok v).balances a t =
      if a = u ∧ t = tok then v else s.balances a t := rfl

theorem writeBalance_credit_apply (s : State) (u tok : Nat) (δ : Int)
    (a t : Nat) :
    (s.writeBalance u tok
      { balance := (s.readBalance u tok).balance + δ
        balance_on_withdraw :=
          (s.readBalance u tok).balance_on_withdraw }).balances a t =
    { balance := (s.balances a t).balance + (if a = u ∧ t = tok then δ else 0)
      balance_on_withdraw := (s.balances a t).balance_on_withdraw } := by
  simp only [State.writeBalance, State.readBalance]
  split_ifs with hc
  · obtain ⟨rfl, rfl⟩ := hc; rfl
  · simp

theorem writeBalance_debit_apply (s : State) (u tok : Nat) (δ : Int)
    (a t : Nat) :
    (s.writeBalance u tok
      { balance := (s.readBalance u tok).balance - δ
        balance_on_withdraw :=
          (s.readBalance u tok).balance_on_withdraw }).balances a t =
    { balance := (s.balances a t).balance - (if a = u ∧ t = tok then δ else 0)
      balance_on_withdraw := (s.balances a t).balance_on_withdraw } := by
  simp only [State.writeBalance, State.readBalance]
  split_ifs with hc
  · obtain ⟨rfl, rfl⟩ := hc; rfl
  · simp

theorem writeBalance_fee_collector (s : State) (u tok : Nat)
    (v : UserBalances) :
    (s.writeBalance u tok v).fee_collector = s.fee_collector := rfl

theorem execute_trade_delta {s s' : State} {trade : TradeUploadUnit}
    {pair : Nat × Nat} {side : PurchaseSide}
    (h : execute_trade s trade pair side = .ok s') :
    (∀ a t, s'.balances a t =
      { balance := (s.balances a t).balance +
          ((if a = trade.account ∧ t =
              (match side with | .Buy => pair.1 | .Sell => pair.2) then
            (match side with
             | .Buy => trade.quantity | .Sell => trade.amount) else 0) +
           (if a = trade.account ∧ t =
              (match side with | .Buy => pair.2 | .Sell => pair.1) then
            -(match side with
              | .Buy => trade.amount | .Sell => trade.quantity) else 0))
        balance_on_withdraw := (s.balances a t).balance_on_withdraw }) ∧
    SameExceptBalances s s' := by
  unfold execute_trade at h
  cases side
  case Buy =>
    simp only at h
    split at h
    case isTrue hge =>
      injection h with h
      subst h
      refine ⟨fun a t => ?_, ⟨rfl, rfl, rfl, rfl, rfl⟩⟩
      rw [writeBalance_debit_apply, writeBalance_credit_apply]
      simp only [UserBalances.mk.injEq, and_true]
      split_ifs <;> ring
    case isFalse => exact absurd h (by simp)
  case Sell =>
    simp only at h
    split at h
    case isTrue hge =>
      injection h with h
      subst h
      refine ⟨fun a t => ?_, ⟨rfl, rfl, rfl, rfl, rfl⟩⟩
      rw [writeBalance_debit_apply, writeBalance_credit_apply]
      simp only [UserBalances.mk.injEq, and_true]
      split_ifs <;> ring
    case isFalse => exact absurd h (by simp)

theorem withdraw_fee_delta {s s' : State} {trade : TradeUploadUnit}
    (h : withdraw_fee s trade = .ok s') :
    (∀ a t, s'.balances a t =
      { balance := (s.balances a t).balance +
          ((if a = trade.account ∧ t = trade.fee_token_asset then
            -trade.fee_amount else 0) +
           (if a = s.fee_collector ∧ t = trade.fee_token_asset then
            trade.fee_amount else 0))
        balance_on_withdraw := (s.balances a t).balance_on_withdraw }) ∧
    SameExceptBalances s s' := by
  unfold withdraw_fee at h
  split at h
  case isTrue hz =>
    injection h with h
    subst h
    refine ⟨fun a t => ?_, ⟨rfl, rfl, rfl, rfl, rfl⟩⟩
    rw [hz]
    simp
  case isFalse hz =>
    simp only at h
    split at h
    case isTrue hge =>
      injection h with h
      subst h
      refine ⟨fun a t => ?_, ⟨rfl, rfl, rfl, rfl, rfl⟩⟩
      rw [writeBalance_credit_apply, writeBalance_debit_apply]
      simp only [writeBalance_fee_collector, UserBalances.mk.injEq, and_true]
      split_ifs <;> ring
    case isFalse => exact absurd h (by simp)


theorem pairTokens_eq_of_pairs_eq {s1 s : State} (hp : s1.pairs = s.pairs)
    (sym : Nat) : s1.pairTokens sym = s.pairTokens sym := by
  unfold State.pairTokens
  rw [hp]

/-- The effect of one `execute_pair_swap` on balances is exactly
`swapDelta` over the stored pair, with everything else unchanged. -/
theorem execute_pair_swap_delta {s s' : State} {tp : TradeUploadPair}
    (h : execute_pair_swap s tp = .ok s') :
    (∀ a t, s'.balances a t =
      { balance := (s.balances a t).balance +
          swapDelta (s.pairTokens tp.buy_side.symbol) s.fee_collector tp a t
        balance_on_withdraw := (s.balances a t).balance_on_withdraw }) ∧
    SameExceptBalances s s' := by
  unfold execute_pair_swap at h
  split at h
  case isFalse => exact absurd h (by simp)
  case isTrue hsym =>
    unfold State.get_pair at h
    cases hp : s.pairs tp.buy_side.symbol with
    | none => rw [hp] at h; exact absurd h (by simp)
    | some info =>
      rw [hp] at h
      simp only at h
      have hpt : s.pairTokens tp.buy_side.symbol = (info.token1, info.token2) := by
        unfold State.pairTokens
        rw [hp]
      cases h1 : execute_trade s tp.buy_side (info.token1, info.token2) .Buy with
      | error e => rw [h1] at h; exact absurd h (by simp)
      | ok s1 =>
        rw [h1] at h
        simp only at h
        cases h2 : withdraw_fee s1 tp.buy_side with
        | error e => rw [h2] at h; exact absurd h (by simp)
        | ok s2 =>
          rw [h2] at h
          simp only at h
          cases h3 : execute_trade s2 tp.sell_side (info.token1, info.token2) .Sell with
          | error e => rw [h3] at h; exact absurd h (by simp)
          | ok s3 =>
            rw [h3] at h
            simp only at h
            obtain ⟨d1, p1⟩ := execute_trade_delta h1
            obtain ⟨d2, p2⟩ := withdraw_fee_delta h2
            obtain ⟨d3, p3⟩ := execute_trade_delta h3
            obtain ⟨d4, p4⟩ := withdraw_fee_delta h
            have hfc1 : s1.fee_collector = s.fee_collector := p1.2.2.2.2
            have hfc2 : s2.fee_collector = s.fee_collector :=
              (p2.2.2.2.2).trans hfc1
            have hfc3 : s3.fee_collector = s.fee_collector :=
              (p3.2.2.2.2).trans hfc2
            refine ⟨fun a t => ?_, ?_⟩
            · rw [d4 a t, d3 a t, d2 a t, d1 a t]
              simp only [hfc1, hfc3]
              unfold swapDelta
              rw [hpt]
              simp only [UserBalances.mk.injEq, and_true]
              ring
            · exact sameExceptBalances_trans p1 (sameExceptBalances_trans p2
                (sameExceptBalances_trans p3 p4))

/-- The whole trade loop adds the sum of the pairs' `swapDelta`s. -/
theorem swapLoop_delta (trades : List TradeUploadPair) :
    ∀ {s s' : State}, swapLoop s trades = .ok s' →
    (∀ a t, s'.balances a t =
      { balance := (s.balances a t).balance +
          (trades.map (fun tp =>
            swapDelta (s.pairTokens tp.buy_side.symbol) s.fee_collector
              tp a t)).sum
        balance_on_withdraw := (s.balances a t).balance_on_withdraw }) ∧
    SameExceptBalances s s' := by
  induction trades with
  | nil =>
    intro s s' h
    unfold swapLoop at h
    injection h with h
    subst h
    exact ⟨fun a t => by simp, sameExceptBalances_refl s⟩
  | cons tp rest ih =>
    intro s s' h
    unfold swapLoop at h
    cases h1 : execute_pair_swap s tp with
    | error e => rw [h1] at h; exact absurd h (by simp)
    | ok s1 =>
      rw [h1] at h
      simp only at h
      obtain ⟨db, pb⟩ := execute_pair_swap_delta h1
      obtain ⟨dr, pr⟩ := ih h
      have hpt := pairTokens_eq_of_pairs_eq pb.1
      refine ⟨fun a t => ?_, sameExceptBalances_trans pb pr⟩
      · rw [dr a t]
        simp only [hpt, pb.2.2.2.2]
        rw [db a t]
        simp only [UserBalances.mk.injEq, and_true, List.map_cons, List.sum_cons]
        ring


/-- C1: a `TradeUpload` batch whose `batch_id` equals the stored `BatchId`
applies, pair by pair, exactly the claimed side mapping — buy side credited
`quantity` of token1 and debited `amount` of token2, sell side credited
`amount` of token2 and debited `quantity` of token1, each side's
`fee_amount` moved from its `fee_token_asset` balance to the fee
collector's (`swapDelta`) — leaves `balance_on_withdraw` untouched, and
then increments `BatchId` by one.  The final conjunct records that the only
failure mode of a debit inside `execute_trade` is an insufficient balance
(`ErrBalanceNotEnough`). -/
theorem trade_batch_side_mapping (s : State) (td : TradeUploadData)
    (s' : State) (h : process_trades_batch s td = .ok s') :
    td.batch_id = s.batch_id ∧
    s'.batch_id = s.batch_id + 1 ∧
    (∀ a t, s'.balances a t =
      { balance := (s.balances a t).balance +
          (td.trades.map (fun tp =>
            swapDelta (s.pairTokens tp.buy_side.symbol) s.fee_collector
              tp a t)).sum
        balance_on_withdraw := (s.balances a t).balance_on_withdraw }) ∧
    (∀ (s₂ : State) (trade : TradeUploadUnit) (pair : Nat × Nat)
      (side : PurchaseSide),
      (∃ s₃, execute_trade s₂ trade pair side = .ok s₃) ∨
        execute_trade s₂ trade pair side =
          .error Error.ErrBalanceNotEnough) := by
  unfold process_trades_batch at h
  split at h
  case isFalse => exact absurd h (by simp)
  case isTrue hb =>
    cases hl : swapLoop s td.trades with
    | error e => rw [hl] at h; exact absurd h (by simp)
    | ok s1 =>
      rw [hl] at h
      simp only at h
      injection h with h
      subst h
      obtain ⟨dl, pl⟩ := swapLoop_delta td.trades hl
      refine ⟨hb, ?_, dl, ?_⟩
      · show s1.batch_id + 1 = s.batch_id + 1
        rw [pl.2.2.2.1]
      · intro s₂ trade pair side
        unfold execute_trade
        cases side
        case Buy =>
          simp only
          split
          case isTrue => exact .inl ⟨_, rfl⟩
          case isFalse => exact .inr rfl
        case Sell =>
          simp only
          split
          case isTrue => exact .inl ⟨_, rfl⟩
          case isFalse => exact .inr rfl

/-- Scenario 5's initial state: u1 (= 11) holds 10 of token1 (= 1) and 5 of
the fee token (= 3); u2 (= 12) holds 10 of token2 (= 2) and 5 of the fee
token; the pair under symbol 5 is (token1, token2), Listed; fresh counters;
fee collector 99. -/
def c1State : State :=
  { balances := fun u t =>
      if u = 11 ∧ t = 1 then { balance := 10, balance_on_withdraw := 0 }
      else if u = 11 ∧ t = 3 then { balance := 5, balance_on_withdraw := 0 }
      else if u = 12 ∧ t = 2 then { balance := 10, balance_on_withdraw := 0 }
      else if u = 12 ∧ t = 3 then { balance := 5, balance_on_withdraw := 0 }
      else { balance := 0, balance_on_withdraw := 0 }
    pairs := fun sym =>
      if sym = 5 then some { token1 := 1, token2 := 2, status := .Listed }
      else none
    withdraw_requests := fun _ => none
    withdraw_id := 1, batch_id := 1, fee_collector := 99 }

/-- Scenario 5's batch: one pair, buy side u2 (qty 1, amount 5, fee 1),
sell side u1 (qty 1, amount 5, fee 2), batch id 1. -/
def c1Batch : TradeUploadData :=
  { batch_id := 1
    trades := [
      { buy_side := { trade_id := 1, account := 12, symbol := 5
                      quantity := 1, amount := 5, fee_amount := 1
                      fee_token_asset := 3, timestamp := 0 }
        sell_side := { trade_id := 2, account := 11, symbol := 5
                       quantity := 1, amount := 5, fee_amount := 2
                       fee_token_asset := 3, timestamp := 0 } }] }

/-- Witness for C1 (scenario 5's literal outcome): u2.token2 = 5,
u2.token1 = 1, u1.token1 = 9, u1.token2 = 5, u1.fee = 3, u2.fee = 4,
fee_collector.fee = 3, and `BatchId` becomes 2. -/
theorem trade_batch_side_mapping_witness :
    ∃ s', process_trades_batch c1State c1Batch = .ok s' ∧
      (s'.balances 12 2).balance = 5 ∧ (s'.balances 12 1).balance = 1 ∧
      (s'.balances 11 1).balance = 9 ∧ (s'.balances 11 2).balance = 5 ∧
      (s'.balances 11 3).balance = 3 ∧ (s'.balances 12 3).balance = 4 ∧
      (s'.balances 99 3).balance = 3 ∧ s'.batch_id = 2 := by
  obtain ⟨s', hs⟩ : ∃ s', process_trades_batch c1State c1Batch = .ok s' :=
    ⟨_, rfl⟩
  obtain ⟨hb, hinc, hbal, _⟩ := trade_batch_side_mapping c1State c1Batch s' hs
  refine ⟨s', hs, ?_, ?_, ?_, ?_, ?_, ?_, ?_, ?_⟩
  · rw [hbal 12 2]; decide
  · rw [hbal 12 1]; decide
  · rw [hbal 11 1]; decide
  · rw [hbal 11 2]; decide
  · rw [hbal 11 3]; decide
  · rw [hbal 12 3]; decide
  · rw [hbal 99 3]; decide
  · rw [hinc]; rfl

end AM

namespace Clob

/-! ## Claim C3: the planning phase's fill arithmetic and taker status -/

/-- The quantity a plan consumes: the sum of its recorded fill amounts. -/
def consumedQuantity (pf : PendingFill) : Nat :=
  (pf.maker_fills.map (fun f => f.fill_amount)).sum

/-- The claim's pointwise description of a planned fill list against a
running taker remainder: each recorded fill takes
`min(maker.quantity, taker_remaining)`, is `Complete` exactly when that
equals the maker's quantity (`Partial` otherwise), and the remainder
decreases by the fill amount. -/
def FillsSpec : Nat → List MakerFill → Prop
  | _, [] => True
  | rem, f :: rest =>
    f.fill_amount = min f.maker_order.quantity rem ∧
    f.fill_type = (if f.fill_amount = f.maker_order.quantity then
      FillStatus.Complete else FillStatus.Partial) ∧
    FillsSpec (rem - f.fill_amount) rest

/-- Invariants of the maker walk: the recorded fills satisfy `FillsSpec`,
the remainder decreases by exactly the recorded amounts, the in-loop status
is `NoFill` iff nothing was recorded, and it is `Complete` iff the
remainder was driven to zero. -/
theorem fillLoop_spec (taker : NewOrder) (side : OrderSide)
    (ot : OrderType) :
    ∀ (makers : List (OrderBookId × Order)) (rem : Nat), 0 < rem →
    ∀ fills st rem', fillLoop taker side ot makers rem = (fills, st, rem') →
    FillsSpec rem fills ∧
    rem' + (fills.map (fun f => f.fill_amount)).sum = rem ∧
    (st = FillStatus.NoFill ↔ fills = []) ∧
    (st = FillStatus.Complete ↔ rem' = 0) ∧
    rem' ≤ rem := by
  intro makers
  induction makers with
  | nil =>
    intro rem hrem fills st rem' h
    unfold fillLoop at h
    obtain ⟨rfl, rfl, rfl⟩ := Prod.mk.injEq .. ▸ (by
      injection h with h1 h2
      injection h2 with h2 h3
      exact ⟨h1.symm, h2.symm, h3.symm⟩ :
        fills = [] ∧ st = FillStatus.NoFill ∧ rem' = rem)
    refine ⟨trivial, by simp, by simp, ?_, le_refl rem⟩
    constructor
    · intro hc; exact absurd hc (by simp)
    · intro h0; omega
  | cons m rest ih =>
    intro rem hrem fills st rem' h
    obtain ⟨oix, order⟩ := m
    unfold fillLoop at h
    split at h
    case isTrue hskip => exact ih rem hrem fills st rem' h
    case isFalse hskip =>
      simp only at h
      by_cases hbreak :
          rem = (if order.quantity ≤ rem then order.quantity else rem)
      case pos =>
        rw [if_pos hbreak] at h
        injection h with h1 h2
        injection h2 with h2 h3
        subst h1; subst h2; subst h3
        set fa := if order.quantity ≤ rem then order.quantity else rem with hfa
        refine ⟨⟨?_, rfl, trivial⟩, by simp [← hbreak], by simp, by simp, by omega⟩
        rw [hfa, Nat.min_def]
      case neg =>
        rw [if_neg hbreak] at h
        set fa := if order.quantity ≤ rem then order.quantity else rem with hfa
        have hfale : fa ≤ rem := by rw [hfa]; split <;> omega
        have hfalt : fa < rem := by omega
        have hpos : 0 < rem - fa := by omega
        cases hrec : fillLoop taker side ot rest (rem - fa) with
        | mk fills' str =>
          obtain ⟨st', rem''⟩ := str
          rw [hrec] at h
          simp only at h
          injection h with h1 h2
          injection h2 with h2 h3
          subst h1; subst h2; subst h3
          obtain ⟨hspec, hsum, hnof, hcomp, hle⟩ :=
            ih (rem - fa) hpos fills' st' rem'' hrec
          refine ⟨⟨by rw [hfa, Nat.min_def], rfl, hspec⟩, by simp; omega,
            by split <;> simp_all, ?_, by omega⟩
          constructor
          · intro hc
            split at hc
            · exact absurd hc (by simp)
            · exact hcomp.mp hc
          · intro h0
            have hst' := hcomp.mpr h0
            rw [if_neg (by rw [hst']; simp)]
            exact hst'

/-- C3: for every order book and taker order (of positive quantity), the
plan built by `fill_order` records fills with
`fill_amount = min(maker.quantity, taker_remaining)` and `fill_type`
`Complete` exactly when the amount equals the maker's quantity
(`FillsSpec`), and the returned taker status is `Complete` iff the taker
quantity is fully absorbed, `None` iff no maker quantity was consumed, and
`Partial` otherwise. -/
theorem fill_order_plan_spec (book : OrderBook) (taker : NewOrder)
    (side : OrderSide) (order_type : OrderType) (h : 0 < taker.quantity) :
    FillsSpec taker.quantity
      (fill_order book taker side order_type).maker_fills ∧
    ((fill_order book taker side order_type).taker_fill_status =
        FillStatus.Complete ↔
      consumedQuantity (fill_order book taker side order_type) =
        taker.quantity) ∧
    ((fill_order book taker side order_type).taker_fill_status =
        FillStatus.NoFill ↔
      consumedQuantity (fill_order book taker side order_type) = 0) ∧
    ((fill_order book taker side order_type).taker_fill_status =
        FillStatus.Partial ↔
      (0 < consumedQuantity (fill_order book taker side order_type) ∧
        consumedQuantity (fill_order book taker side order_type) <
          taker.quantity)) := by
  unfold fill_order
  simp only
  set maker_side := match side with
    | OrderSide.BUY => OrderSide.SELL
    | OrderSide.SELL => OrderSide.BUY with hms
  cases hrec : fillLoop taker side order_type
      (book.maker_orders_iter maker_side) taker.quantity with
  | mk fills str =>
    obtain ⟨st, rem'⟩ := str
    obtain ⟨hspec, hsum, hnof, hcomp, hle⟩ :=
      fillLoop_spec taker side order_type _ taker.quantity h fills st rem' hrec
    simp only [consumedQuantity]
    refine ⟨hspec, ?_, ?_, ?_⟩
    · constructor
      · intro hc
        split at hc
        · exact absurd hc (by simp)
        · have := hcomp.mp hc
          omega
      · intro hq
        have h0 : rem' = 0 := by omega
        rw [if_neg (by omega)]
        exact hcomp.mpr h0
    · constructor
      · intro hc
        split at hc
        · omega
        · have := hnof.mp hc
          subst this
          simp at hsum ⊢
      · intro hq
        rw [if_pos (by omega)]
    · constructor
      · intro hc
        split at hc
        · exact absurd hc (by simp)
        case isFalse hne =>
          have h1 : ¬rem' = 0 := by
            intro h0
            exact absurd (hcomp.mpr h0) (by rw [hc]; simp)
          omega
      · rintro ⟨h1, h2⟩
        rw [if_neg (by omega)]
        cases hs : st with
        | Complete => exact absurd (hcomp.mp hs) (by omega)
        | Partial => rfl
        | NoFill =>
          have := hnof.mp hs
          subst this
          exact absurd h1 (by simp)

/-- Witness for C3: the plan built on the scenario book of C4 (sells 40@50
and 60@55 against a market buy of 80) satisfies the fill arithmetic and
status trichotomy. -/
theorem fill_order_plan_spec_witness :
    FillsSpec c4Taker.quantity
      (fill_order c4Book c4Taker .BUY .Market).maker_fills ∧
    ((fill_order c4Book c4Taker .BUY .Market).taker_fill_status =
        FillStatus.Complete ↔
      consumedQuantity (fill_order c4Book c4Taker .BUY .Market) =
        c4Taker.quantity) ∧
    ((fill_order c4Book c4Taker .BUY .Market).taker_fill_status =
        FillStatus.NoFill ↔
      consumedQuantity (fill_order c4Book c4Taker .BUY .Market) = 0) ∧
    ((fill_order c4Book c4Taker .BUY .Market).taker_fill_status =
        FillStatus.Partial ↔
      (0 < consumedQuantity (fill_order c4Book c4Taker .BUY .Market) ∧
        consumedQuantity (fill_order c4Book c4Taker .BUY .Market) <
          c4Taker.quantity)) :=
  fill_order_plan_spec c4Book c4Taker .BUY .Market (by decide)

end Clob

namespace Clob

/-! ### Helper lemmas: association list and parallel-array plumbing -/

theorem alGet_alSet_self (l : List (Nat × Nat)) (k v : Nat) :
    alGet (alSet l k v) k = some v := by
  induction l with
  | nil => simp [alSet, alGet]
  | cons p t ih =>
    unfold alSet
    by_cases hp : p.1 = k
    · rw [if_pos hp]
      simp [alGet]
    · rw [if_neg hp]
      unfold alGet
      rw [if_neg hp]
      exact ih

theorem alGet_alSet_ne (l : List (Nat × Nat)) (k v k' : Nat) (h : k' ≠ k) :
    alGet (alSet l k v) k' = alGet l k' := by
  induction l with
  | nil =>
    simp only [alSet, alGet]
    rw [if_neg (by omega)]
  | cons p t ih =>
    unfold alSet
    by_cases hp : p.1 = k
    · rw [if_pos hp]
      unfold alGet
      rw [if_neg (by omega), if_neg (by omega)]
    · rw [if_neg hp]
      unfold alGet
      by_cases hp' : p.1 = k'
      · rw [if_pos hp', if_pos hp']
      · rw [if_neg hp', if_neg hp']
        exact ih

theorem alGet_alRemove_self (l : List (Nat × Nat)) (k : Nat) :
    alGet (alRemove l k) k = none := by
  induction l with
  | nil => simp [alRemove, alGet]
  | cons p t ih =>
    unfold alRemove
    by_cases hp : p.1 = k
    · rw [if_pos hp]
      exact ih
    · rw [if_neg hp]
      unfold alGet
      rw [if_neg hp]
      exact ih

theorem alGet_alRemove_ne (l : List (Nat × Nat)) (k k' : Nat) (h : k' ≠ k) :
    alGet (alRemove l k) k' = alGet l k' := by
  induction l with
  | nil => simp [alRemove]
  | cons p t ih =>
    unfold alRemove
    by_cases hp : p.1 = k
    · rw [if_pos hp, ih]
      conv_rhs => unfold alGet
      rw [if_neg (by omega)]
    · rw [if_neg hp]
      conv_lhs => unfold alGet
      conv_rhs => unfold alGet
      by_cases hp' : p.1 = k'
      · rw [if_pos hp', if_pos hp']
      · rw [if_neg hp', if_neg hp']
        exact ih

theorem alSet_ne_nil (l : List (Nat × Nat)) (k v : Nat) :
    alSet l k v ≠ [] := by
  cases l with
  | nil => simp [alSet]
  | cons p t =>
    unfold alSet
    split <;> simp

theorem alGet_of_ne_nil {l : List (Nat × Nat)} (h : l ≠ []) :
    ∃ k v, alGet l k = some v := by
  cases l with
  | nil => exact absurd rfl h
  | cons p t =>
    refine ⟨p.1, p.2, ?_⟩
    unfold alGet
    rw [if_pos rfl]

theorem set_get?_self {α : Type _} {l : List α} {i : Nat} {a : α}
    (h : l.get? i = some a) : l.set i a = l := by
  induction l generalizing i with
  | nil => simp at h
  | cons x t ih =>
    cases i with
    | zero =>
      simp only [List.get?] at h
      injection h with h
      rw [h]
      rfl
    | succ n =>
      simp only [List.get?] at h
      simp [List.set, ih h]

theorem map_insertIdx {α β : Type _} (f : α → β) :
    ∀ (n : Nat) (l : List α) (a : α),
    (l.insertIdx n a).map f = (l.map f).insertIdx n (f a)
  | 0, l, a => by simp [List.insertIdx_zero]
  | n + 1, [], a => by simp [List.insertIdx]
  | n + 1, x :: t, a => by
    simp only [List.insertIdx_succ_cons, List.map_cons]
    rw [map_insertIdx f n t a]

theorem map_eraseIdx {α β : Type _} (f : α → β) :
    ∀ (n : Nat) (l : List α), (l.eraseIdx n).map f = (l.map f).eraseIdx n
  | 0, [] => by simp
  | 0, x :: t => by simp
  | n + 1, [] => by simp
  | n + 1, x :: t => by
    simp only [List.eraseIdx_cons_succ, List.map_cons]
    rw [map_eraseIdx f n t]

theorem mem_insertIdx_or {α : Type _} {a x : α} :
    ∀ {i : Nat} {l : List α}, a ∈ l.insertIdx i x → a = x ∨ a ∈ l := by
  intro i
  induction i with
  | zero =>
    intro l h
    rw [List.insertIdx_zero] at h
    rcases List.mem_cons.mp h with h | h
    · exact .inl h
    · exact .inr h
  | succ n ih =>
    intro l h
    cases l with
    | nil => simp [List.insertIdx] at h
    | cons y t =>
      rw [List.insertIdx_succ_cons] at h
      rcases List.mem_cons.mp h with h | h
      · exact .inr (h ▸ List.mem_cons_self y t)
      · rcases ih h with h | h
        · exact .inl h
        · exact .inr (List.mem_cons_of_mem y h)

theorem searchSorted_found : ∀ {l : List Nat} {x i : Nat},
    searchSorted l x = .inl i → l.get? i = some x := by
  intro l
  induction l with
  | nil => intro x i h; simp [searchSorted] at h
  | cons a t ih =>
    intro x i h
    unfold searchSorted at h
    split at h
    · exact absurd h (by simp)
    · split at h
      case isTrue hx =>
        injection h with h
        subst h
        simp [List.get?, hx]
      case isFalse hx =>
        cases hr : searchSorted t x with
        | inl j =>
          rw [hr] at h
          injection h with h
          subst h
          simpa [List.get?] using ih hr
        | inr j => rw [hr] at h; exact absurd h (by simp)

theorem searchSorted_insert_pairwise : ∀ {l : List Nat} {x i : Nat},
    List.Pairwise (· < ·) l → searchSorted l x = .inr i →
    List.Pairwise (· < ·) (l.insertIdx i x) := by
  intro l
  induction l with
  | nil =>
    intro x i _ h
    unfold searchSorted at h
    injection h with h
    subst h
    simp [List.insertIdx_zero]
  | cons a t ih =>
    intro x i hp h
    unfold searchSorted at h
    split at h
    case isTrue hlt =>
      injection h with h
      subst h
      rw [List.insertIdx_zero]
      refine List.pairwise_cons.mpr ⟨?_, hp⟩
      intro b hb
      rcases List.mem_cons.mp hb with h | h
      · omega
      · have := (List.pairwise_cons.mp hp).1 b h
        omega
    case isFalse hlt =>
      split at h
      case isTrue => exact absurd h (by simp)
      case isFalse hne =>
        cases hr : searchSorted t x with
        | inl j => rw [hr] at h; exact absurd h (by simp)
        | inr j =>
          rw [hr] at h
          injection h with h
          subst h
          rw [List.insertIdx_succ_cons]
          obtain ⟨ha, hpt⟩ := List.pairwise_cons.mp hp
          refine List.pairwise_cons.mpr ⟨?_, ih hpt hr⟩
          intro b hb
          rcases mem_insertIdx_or hb with h | h
          · omega
          · exact ha b h

/-! ## Claim C9: the parallel-array store invariants -/

/-- Level consistency needed by C9: every mapped id points to a surviving
slot, distinct ids point to distinct slots, and the id map is nonempty. -/
structure WFLevel9 (ps : PriceStore) : Prop where
  getSome : ∀ k i, alGet ps.order_ids k = some i →
    ∃ o, ps.orders.get? i = some (some o)
  inj : ∀ k k' i i', alGet ps.order_ids k = some i →
    alGet ps.order_ids k' = some i' → k ≠ k' → i = i' → k = k'
  hasId : ps.order_ids ≠ []

/-- Store invariants of C9: strictly increasing prices, the parallel price
array mirrors the levels' own prices, and every stored level is nonempty
and consistent. -/
structure WFStore9 (s : PriceLevelStore) : Prop where
  sorted : List.Pairwise (· < ·) s.levels_price
  pricesEq : s.levels.map (fun l => l.price) = s.levels_price
  levelsWF : ∀ l ∈ s.levels, WFLevel9 l

theorem get?_lt_length {α : Type _} {l : List α} {i : Nat} {a : α}
    (h : l.get? i = some a) : i < l.length := by
  by_contra hge
  rw [List.get?_eq_none.mpr (by omega)] at h
  exact absurd h (by simp)

theorem levels_get_of_price {s : PriceLevelStore}
    (hpe : s.levels.map (fun l => l.price) = s.levels_price)
    {i p : Nat} (h : s.levels_price.get? i = some p) :
    ∃ node, s.levels.get? i = some node ∧ node.price = p := by
  have hm : (s.levels.map (fun l => l.price)).get? i = some p := by
    rw [hpe]; exact h
  rw [List.get?_map] at hm
  cases hn : s.levels.get? i with
  | none => rw [hn] at hm; exact absurd hm (by simp)
  | some node =>
    rw [hn] at hm
    simp only [Option.map_some'] at hm
    injection hm with hm
    exact ⟨node, rfl, hm⟩

/-- `PriceStore.add_order` preserves the C9 level invariants (and
establishes them on a fresh level), keeps the price, and leaves the level
nonempty. -/
theorem add_order_wf9 {ps : PriceStore} (hw : WFLevel9 ps)
    (o : NewAccountOrder) : WFLevel9 (ps.add_order o).2 := by
  unfold PriceStore.add_order
  simp only
  constructor
  · intro k i hget
    by_cases hk : k = ps.orders_id_counter + 1
    · subst hk
      rw [alGet_alSet_self] at hget
      injection hget with hget
      subst hget
      refine ⟨o.into_order (ps.orders_id_counter + 1), ?_⟩
      rw [List.get?_append_right (le_refl _)]
      simp
    · rw [alGet_alSet_ne _ _ _ _ hk] at hget
      obtain ⟨o', ho'⟩ := hw.getSome k i hget
      refine ⟨o', ?_⟩
      rw [List.get?_append (get?_lt_length ho')]
      exact ho'
  · intro k k' i i' hget hget' hne hii
    by_cases hk : k = ps.orders_id_counter + 1 <;>
      by_cases hk' : k' = ps.orders_id_counter + 1
    · omega
    · subst hk
      rw [alGet_alSet_self] at hget
      rw [alGet_alSet_ne _ _ _ _ hk'] at hget'
      injection hget with hget
      obtain ⟨o', ho'⟩ := hw.getSome k' i' hget'
      have := get?_lt_length ho'
      omega
    · subst hk'
      rw [alGet_alSet_self] at hget'
      rw [alGet_alSet_ne _ _ _ _ hk] at hget
      injection hget' with hget'
      obtain ⟨o', ho'⟩ := hw.getSome k i hget
      have := get?_lt_length ho'
      omega
    · rw [alGet_alSet_ne _ _ _ _ hk] at hget
      rw [alGet_alSet_ne _ _ _ _ hk'] at hget'
      exact hw.inj k k' i i' hget hget' hne hii
  · exact alSet_ne_nil _ _ _

/-- A fresh one-order level is C9-well-formed. -/
theorem new_level_wf9 (price : Nat) (o : NewAccountOrder) :
    WFLevel9 ((PriceStore.new price).add_order o).2 := by
  unfold PriceStore.new PriceStore.add_order
  simp only
  constructor
  · intro k i hget
    unfold alSet alGet at hget
    simp only at hget
    split at hget
    case isTrue hk =>
      injection hget with hget
      subst hget
      exact ⟨o.into_order 1, rfl⟩
    case isFalse => exact absurd hget (by simp [alGet])
  · intro k k' i i' hget hget'
    unfold alSet alGet at hget hget'
    simp only at hget hget'
    split at hget
    case isTrue hk =>
      split at hget'
      case isTrue hk' => omega
      case isFalse => exact absurd hget' (by simp [alGet])
    case isFalse => exact absurd hget (by simp [alGet])
  · simp [alSet]

/-- A successful `PriceStore.remove_order` that leaves the level nonempty
preserves the C9 level invariants and the price. -/
theorem remove_order_wf9 {ps : PriceStore} (hw : WFLevel9 ps) {k : Nat}
    {o : Order} {ps' : PriceStore}
    (h : ps.remove_order k = (some o, ps'))
    (hne : ps'.is_empty = false) : WFLevel9 ps' := by
  unfold PriceStore.remove_order at h
  cases hget : alGet ps.order_ids k with
  | none => rw [hget] at h; simp at h
  | some index =>
    rw [hget] at h
    simp only at h
    injection h with h1 h2
    subst h2
    constructor
    · intro k' i' hget'
      have hk' : k' ≠ k := by
        intro he
        subst he
        rw [alGet_alRemove_self] at hget'
        exact absurd hget' (by simp)
      rw [alGet_alRemove_ne _ _ _ hk'] at hget'
      obtain ⟨o', ho'⟩ := hw.getSome k' i' hget'
      refine ⟨o', ?_⟩
      simp only [List.get?_eq_getElem?] at ho' ⊢
      rw [List.getElem?_set]
      rw [if_neg ?_]
      · exact ho'
      · intro he
        exact hk' (hw.inj k k' index i' hget hget' (fun x => hk' x.symm) he).symm
    · intro k1 k2 i1 i2 hg1 hg2 hne12 hii
      have hk1 : k1 ≠ k := by
        intro he; subst he; rw [alGet_alRemove_self] at hg1; simp at hg1
      have hk2 : k2 ≠ k := by
        intro he; subst he; rw [alGet_alRemove_self] at hg2; simp at hg2
      rw [alGet_alRemove_ne _ _ _ hk1] at hg1
      rw [alGet_alRemove_ne _ _ _ hk2] at hg2
      exact hw.inj k1 k2 i1 i2 hg1 hg2 hne12 hii
    · intro hnil
      unfold PriceStore.is_empty at hne
      rw [hnil] at hne
      simp at hne

/-- `PriceStore.update_order` preserves the C9 level invariants and the
price. -/
theorem update_order_wf9 {ps : PriceStore} (hw : WFLevel9 ps) (k : Nat)
    (o : Order) : WFLevel9 (ps.update_order k o).2 := by
  unfold PriceStore.update_order
  cases hget : alGet ps.order_ids k with
  | none => exact hw
  | some index =>
    simp only
    constructor
    · intro k' i' hget'
      obtain ⟨o', ho'⟩ := hw.getSome k' i' hget'
      by_cases hi : index = i'
      · subst hi
        refine ⟨o, ?_⟩
        simp only [List.get?_eq_getElem?]
        rw [List.getElem?_set, if_pos rfl]
        have := get?_lt_length ho'
        rw [if_pos (by simpa using this)]
      · refine ⟨o', ?_⟩
        simp only [List.get?_eq_getElem?] at ho' ⊢
        rw [List.getElem?_set, if_neg hi]
        exact ho'
    · exact hw.inj
    · exact hw.hasId

/-- `PriceStore.remove_order` does not change the level's price. -/
theorem remove_order_price {ps : PriceStore} {k : Nat} {r : Option Order}
    {ps' : PriceStore} (h : ps.remove_order k = (r, ps')) :
    ps'.price = ps.price := by
  unfold PriceStore.remove_order at h
  cases hget : alGet ps.order_ids k with
  | none => rw [hget] at h; injection h with h1 h2; rw [← h2]
  | some index =>
    rw [hget] at h
    simp only at h
    injection h with h1 h2
    rw [← h2]

/-- `PriceStore.add_order` does not change the level's price. -/
theorem add_order_price (ps : PriceStore) (o : NewAccountOrder) :
    (ps.add_order o).2.price = ps.price := rfl

/-- `PriceStore.update_order` does not change the level's price. -/
theorem update_order_price (ps : PriceStore) (k : Nat) (o : Order) :
    (ps.update_order k o).2.price = ps.price := by
  unfold PriceStore.update_order
  cases alGet ps.order_ids k <;> rfl

/-- `PriceLevelStore.push_order` preserves the C9 store invariants. -/
theorem push_order_wf9 {s : PriceLevelStore} (hw : WFStore9 s)
    (o : NewAccountOrder) : WFStore9 (s.push_order o).2 := by
  unfold PriceLevelStore.push_order
  cases hs : searchSorted s.levels_price o.price with
  | inl index =>
    have hpx := searchSorted_found hs
    obtain ⟨node, hn, hnp⟩ := levels_get_of_price hw.pricesEq hpx
    dsimp only
    rw [hn]
    constructor
    · exact hw.sorted
    · rw [List.map_set, add_order_price, hnp, hw.pricesEq]
      exact set_get?_self hpx
    · intro l hl
      rcases List.mem_or_eq_of_mem_set hl with hmem | heq
      · exact hw.levelsWF l hmem
      · subst heq
        exact add_order_wf9 (hw.levelsWF node (List.get?_mem hn)) o
  | inr index =>
    dsimp only
    constructor
    · exact searchSorted_insert_pairwise hw.sorted hs
    · rw [map_insertIdx]
      show (s.levels.map (fun l => l.price)).insertIdx index
          ((PriceStore.new o.price).add_order o).2.price = _
      rw [add_order_price]
      show (s.levels.map (fun l => l.price)).insertIdx index
          (PriceStore.new o.price).price = _
      rw [hw.pricesEq]
      rfl
    · intro l hl
      rcases mem_insertIdx_or hl with heq | hmem
      · subst heq
        exact new_level_wf9 o.price o
      · exact hw.levelsWF l hmem

/-- A successful `PriceLevelStore.remove_order` preserves the C9 store
invariants: in particular, when the level's last surviving order goes, both
parallel entries are deleted, so no empty level is ever stored. -/
theorem remove_order_wf9_store {s : PriceLevelStore} (hw : WFStore9 s)
    {p k : Nat} {o : Order} {s' : PriceLevelStore}
    (h : s.remove_order p k = .ok (o, s')) : WFStore9 s' := by
  unfold PriceLevelStore.remove_order at h
  cases hs : searchSorted s.levels_price p with
  | inr _ => rw [hs] at h; exact absurd h (by simp)
  | inl index =>
    rw [hs] at h
    dsimp only at h
    have hpx := searchSorted_found hs
    obtain ⟨node, hn, hnp⟩ := levels_get_of_price hw.pricesEq hpx
    rw [hn] at h
    dsimp only at h
    cases hrm : node.remove_order k with
    | mk r node' =>
      rw [hrm] at h
      cases r with
      | none => exact absurd h (by simp)
      | some o' =>
        simp only at h
        split at h
        case isTrue hemp =>
          injection h with h
          injection h with h1 h2
          subst h2
          constructor
          · exact List.Pairwise.sublist (List.eraseIdx_sublist _ _) hw.sorted
          · rw [map_eraseIdx, hw.pricesEq]
          · intro l hl
            exact hw.levelsWF l
              ((List.eraseIdx_sublist _ _).mem hl)
        case isFalse hemp =>
          injection h with h
          injection h with h1 h2
          subst h2
          constructor
          · exact hw.sorted
          · rw [List.map_set, remove_order_price hrm, hnp, hw.pricesEq]
            exact set_get?_self hpx
          · intro l hl
            rcases List.mem_or_eq_of_mem_set hl with hmem | heq
            · exact hw.levelsWF l hmem
            · subst heq
              exact remove_order_wf9 (hw.levelsWF node (List.get?_mem hn))
                hrm (by simpa using hemp)

/-- `PriceLevelStore.update_order` preserves the C9 store invariants. -/
theorem update_order_wf9_store {s : PriceLevelStore} (hw : WFStore9 s)
    (pid : PriceLevelId) (o : Order) :
    WFStore9 (s.update_order pid o).2 := by
  unfold PriceLevelStore.update_order
  cases hs : searchSorted s.levels_price pid.price with
  | inr _ => exact hw
  | inl index =>
    have hpx := searchSorted_found hs
    obtain ⟨node, hn, hnp⟩ := levels_get_of_price hw.pricesEq hpx
    dsimp only
    rw [hn]
    constructor
    · exact hw.sorted
    · rw [List.map_set, update_order_price, hnp, hw.pricesEq]
      exact set_get?_self hpx
    · intro l hl
      rcases List.mem_or_eq_of_mem_set hl with hmem | heq
      · exact hw.levelsWF l hmem
      · subst heq
        exact update_order_wf9 (hw.levelsWF node (List.get?_mem hn)) pid.id o

/-- The C9 reachable states of a `PriceLevelStore`: any sequence of
`push_order`, `remove_order` and `update_order` starting from the empty
store (failed removes leave the store untouched and need no step). -/
inductive Reach9 : PriceLevelStore → Prop where
  | empty : Reach9 PriceLevelStore.new
  | push (s : PriceLevelStore) (o : NewAccountOrder) : Reach9 s →
      Reach9 (s.push_order o).2
  | remove (s : PriceLevelStore) (p k : Nat) (o : Order)
      (s' : PriceLevelStore) : Reach9 s →
      s.remove_order p k = .ok (o, s') → Reach9 s'
  | update (s : PriceLevelStore) (pid : PriceLevelId) (o : Order) :
      Reach9 s → Reach9 (s.update_order pid o).2

theorem reach9_wf9 {s : PriceLevelStore} (h : Reach9 s) : WFStore9 s := by
  induction h with
  | empty =>
    constructor
    · simp [PriceLevelStore.new]
    · simp [PriceLevelStore.new]
    · intro l hl
      simp [PriceLevelStore.new] at hl
  | push s o _ ih => exact push_order_wf9 ih o
  | remove s p k o s' _ hr ih => exact remove_order_wf9_store ih hr
  | update s pid o _ ih => exact update_order_wf9_store ih pid o

/-- C9: after any sequence of `push_order`, `remove_order` and
`update_order` mutations, no stored `PriceStore` level is empty (neither by
its id map nor under iteration), `levels_price[i]` equals
`levels[i].price` at every index, and `levels_price` is strictly
increasing; a removal that empties a level deletes both parallel entries,
which is what keeps every stored level nonempty. -/
theorem price_level_store_invariants (s : PriceLevelStore)
    (h : Reach9 s) :
    (∀ l ∈ s.levels, l.is_empty = false ∧ l.iter ≠ []) ∧
    s.levels.map (fun l => l.price) = s.levels_price ∧
    List.Pairwise (· < ·) s.levels_price := by
  have hw := reach9_wf9 h
  refine ⟨fun l hl => ?_, hw.pricesEq, hw.sorted⟩
  have hlw := hw.levelsWF l hl
  constructor
  · unfold PriceStore.is_empty
    simpa using hlw.hasId
  · obtain ⟨k, v, hkv⟩ := alGet_of_ne_nil hlw.hasId
    obtain ⟨o, ho⟩ := hlw.getSome k v hkv
    intro hnil
    have : o ∈ l.iter := by
      unfold PriceStore.iter
      exact List.mem_filterMap.mpr ⟨some o, List.get?_mem ho, rfl⟩
    rw [hnil] at this
    exact absurd this (by simp)

/-- Witness for C9: a store reached by two pushes (prices 100 then 90, so
the second insertion lands in front) satisfies the invariants. -/
theorem price_level_store_invariants_witness :
    (∀ l ∈ (((PriceLevelStore.new.push_order
        { quantity := 50, price := 100, fee_amount := 1
          fee_token_asset := 9, account := 7 }).2.push_order
        { quantity := 70, price := 90, fee_amount := 1
          fee_token_asset := 9, account := 8 }).2).levels,
      l.is_empty = false ∧ l.iter ≠ []) ∧
    (((PriceLevelStore.new.push_order
        { quantity := 50, price := 100, fee_amount := 1
          fee_token_asset := 9, account := 7 }).2.push_order
        { quantity := 70, price := 90, fee_amount := 1
          fee_token_asset := 9, account := 8 }).2).levels.map
      (fun l => l.price) =
      (((PriceLevelStore.new.push_order
        { quantity := 50, price := 100, fee_amount := 1
          fee_token_asset := 9, account := 7 }).2.push_order
        { quantity := 70, price := 90, fee_amount := 1
          fee_token_asset := 9, account := 8 }).2).levels_price ∧
    List.Pairwise (· < ·)
      (((PriceLevelStore.new.push_order
        { quantity := 50, price := 100, fee_amount := 1
          fee_token_asset := 9, account := 7 }).2.push_order
        { quantity := 70, price := 90, fee_amount := 1
          fee_token_asset := 9, account := 8 }).2).levels_price :=
  price_level_store_invariants _
    (Reach9.push _ _ (Reach9.push _ _ Reach9.empty))


/-! ## Claim C5: price-time priority of `maker_orders_iter` -/

/-- The book of the C5 counterexample: a resting sell at price 100 whose
order is then overwritten through the public `update_order` with an order
carrying price 999 (the store accepts it: only the level is addressed by
price), followed by a second resting sell at price 150. -/
def c5Book : OrderBook :=
  (((OrderBook.new.add_sell_order
      { quantity := 10, price := 100, fee_amount := 1, fee_token_asset := 9
        account := 7 }).2.update_order
      (OrderBookId.sell_id 100 1)
      { order_id := 1, account := 7, quantity := 10, price := 999
        fee_amount := 1, fee_token_asset := 9 }).2.add_sell_order
      { quantity := 20, price := 150, fee_amount := 1, fee_token_asset := 9
        account := 8 }).2

/-- C5 counterexample: under unrestricted `update_order` the claim fails —
the sell-side maker iteration of `c5Book` yields prices `[999, 150]`,
which is not ascending (999 > 150), so `maker_orders_iter` does not yield
non-improving prices for every book built by add, remove and update
operations. -/
theorem maker_iter_price_update_counterexample :
    (c5Book.maker_orders_iter .SELL).map (fun e => e.2.price) = [999, 150] ∧
    ¬ List.Pairwise (fun a b => a.2.price ≤ b.2.price ∧
        (a.2.price = b.2.price → a.2.order_id < b.2.order_id))
      (c5Book.maker_orders_iter .SELL) := by
  exact ⟨rfl, by decide⟩


/-- Slot-wise id ordering: whenever two slots both survive, the earlier
slot's order id is smaller. -/
def OptIdLt (a b : Option Order) : Prop :=
  ∀ o o', a = some o → b = some o' → o.order_id < o'.order_id

/-- The full level invariant for C5: besides the C9 consistency, the id map
is exact (slot ids equal their keys), slot ids are strictly increasing,
bounded by the counter, and every surviving order carries the level's
price. -/
structure WFLevel5 (ps : PriceStore) : Prop where
  strongGet : ∀ k i, alGet ps.order_ids k = some i →
    ∃ o, ps.orders.get? i = some (some o) ∧ o.order_id = k
  inj : ∀ k k' i i', alGet ps.order_ids k = some i →
    alGet ps.order_ids k' = some i' → k ≠ k' → i = i' → k = k'
  idsPair : List.Pairwise OptIdLt ps.orders
  idLe : ∀ o : Order, some o ∈ ps.orders → o.order_id ≤ ps.orders_id_counter
  priceEq : ∀ o : Order, some o ∈ ps.orders → o.price = ps.price

/-- The full store invariant for C5. -/
structure WFStore5 (s : PriceLevelStore) : Prop where
  sorted : List.Pairwise (· < ·) s.levels_price
  pricesEq : s.levels.map (fun l => l.price) = s.levels_price
  levelsWF : ∀ l ∈ s.levels, WFLevel5 l

theorem pairwise_set_of_rel {α : Type _} {R : α → α → Prop} {a' : α}
    (ha1 : ∀ b, R b a') (ha2 : ∀ b, R a' b) :
    ∀ {l : List α} {i : Nat}, List.Pairwise R l →
    List.Pairwise R (l.set i a') := by
  intro l
  induction l with
  | nil => intro i _; simp
  | cons x t ih =>
    intro i hp
    obtain ⟨hx, ht⟩ := List.pairwise_cons.mp hp
    cases i with
    | zero =>
      rw [List.set_cons_zero]
      exact List.pairwise_cons.mpr ⟨fun b _ => ha2 b, ht⟩
    | succ n =>
      rw [List.set_cons_succ]
      refine List.pairwise_cons.mpr ⟨?_, ih ht⟩
      intro b hb
      rcases List.mem_or_eq_of_mem_set hb with hmem | heq
      · exact hx b hmem
      · subst heq
        exact ha1 x

theorem pairwise_set_of_iff {α : Type _} {R : α → α → Prop} {a a' : α} :
    ∀ {l : List α} {i : Nat}, List.Pairwise R l → l.get? i = some a →
    (∀ b, R b a → R b a') → (∀ b, R a b → R a' b) →
    List.Pairwise R (l.set i a') := by
  intro l
  induction l with
  | nil => intro i _ hget; simp at hget
  | cons x t ih =>
    intro i hp hget h1 h2
    obtain ⟨hx, ht⟩ := List.pairwise_cons.mp hp
    cases i with
    | zero =>
      simp only [List.get?] at hget
      injection hget with hget
      subst hget
      rw [List.set_cons_zero]
      exact List.pairwise_cons.mpr ⟨fun b hb => h2 b (hx b hb), ht⟩
    | succ n =>
      simp only [List.get?] at hget
      rw [List.set_cons_succ]
      refine List.pairwise_cons.mpr ⟨?_, ih ht hget h1 h2⟩
      intro b hb
      rcases List.mem_or_eq_of_mem_set hb with hmem | heq
      · exact hx b hmem
      · subst heq
        exact h1 x (hx a (List.get?_mem hget))

/-- `PriceStore.add_order` preserves the C5 level invariant when the
appended order carries the level's price. -/
theorem add_order_wf5 {ps : PriceStore} (hw : WFLevel5 ps)
    {o : NewAccountOrder} (hop : o.price = ps.price) :
    WFLevel5 (ps.add_order o).2 := by
  unfold PriceStore.add_order
  simp only
  have hfresh : ∀ o' : Order, some o' ∈ ps.orders →
      o'.order_id < ps.orders_id_counter + 1 := by
    intro o' hm
    have := hw.idLe o' hm
    omega
  constructor
  · intro k i hget
    by_cases hk : k = ps.orders_id_counter + 1
    · subst hk
      rw [alGet_alSet_self] at hget
      injection hget with hget
      subst hget
      refine ⟨o.into_order (ps.orders_id_counter + 1), ?_, rfl⟩
      rw [List.get?_append_right (le_refl _)]
      simp
    · rw [alGet_alSet_ne _ _ _ _ hk] at hget
      obtain ⟨o', ho', hid⟩ := hw.strongGet k i hget
      exact ⟨o', by rw [List.get?_append (get?_lt_length ho')]; exact ho', hid⟩
  · intro k k' i i' hget hget' hne hii
    by_cases hk : k = ps.orders_id_counter + 1 <;>
      by_cases hk' : k' = ps.orders_id_counter + 1
    · omega
    · subst hk
      rw [alGet_alSet_self] at hget
      rw [alGet_alSet_ne _ _ _ _ hk'] at hget'
      injection hget with hget
      obtain ⟨o', ho', _⟩ := hw.strongGet k' i' hget'
      have := get?_lt_length ho'
      omega
    · subst hk'
      rw [alGet_alSet_self] at hget'
      rw [alGet_alSet_ne _ _ _ _ hk] at hget
      injection hget' with hget'
      obtain ⟨o', ho', _⟩ := hw.strongGet k i hget
      have := get?_lt_length ho'
      omega
    · rw [alGet_alSet_ne _ _ _ _ hk] at hget
      rw [alGet_alSet_ne _ _ _ _ hk'] at hget'
      exact hw.inj k k' i i' hget hget' hne hii
  · rw [List.pairwise_append]
    refine ⟨hw.idsPair, by simp [OptIdLt], ?_⟩
    intro a ha b hb
    simp only [List.mem_singleton] at hb
    subst hb
    intro oa ob hoa hob
    subst hoa
    injection hob with hob
    subst hob
    exact hfresh oa ha
  · intro o' hm
    show o'.order_id ≤ ps.orders_id_counter + 1
    rcases List.mem_append.mp hm with hm | hm
    · have := hw.idLe o' hm
      omega
    · simp only [List.mem_singleton] at hm
      injection hm with hm
      subst hm
      rfl
  · intro o' hm
    rcases List.mem_append.mp hm with hm | hm
    · exact hw.priceEq o' hm
    · simp only [List.mem_singleton] at hm
      injection hm with hm
      subst hm
      exact hop

/-- A fresh one-order level is C5-well-formed. -/
theorem new_level_wf5 (o : NewAccountOrder) :
    WFLevel5 ((PriceStore.new o.price).add_order o).2 := by
  unfold PriceStore.new PriceStore.add_order
  simp only
  constructor
  · intro k i hget
    unfold alSet alGet at hget
    simp only at hget
    split at hget
    case isTrue hk =>
      injection hget with hget
      subst hget
      exact ⟨o.into_order 1, rfl, by simp [NewAccountOrder.into_order]; omega⟩
    case isFalse => exact absurd hget (by simp [alGet])
  · intro k k' i i' hget hget'
    unfold alSet alGet at hget hget'
    simp only at hget hget'
    split at hget
    case isTrue hk =>
      split at hget'
      case isTrue hk' => omega
      case isFalse => exact absurd hget' (by simp [alGet])
    case isFalse => exact absurd hget (by simp [alGet])
  · simp
  · intro o' hm
    simp only [List.nil_append, List.mem_singleton] at hm
    injection hm with hm
    subst hm
    rfl
  · intro o' hm
    simp only [List.nil_append, List.mem_singleton] at hm
    injection hm with hm
    subst hm
    rfl


/-- `PriceStore.remove_order` (tombstoning) preserves the C5 level
invariant. -/
theorem remove_order_wf5 {ps : PriceStore} (hw : WFLevel5 ps) {k : Nat}
    {r : Option Order} {ps' : PriceStore}
    (h : ps.remove_order k = (r, ps')) : WFLevel5 ps' := by
  unfold PriceStore.remove_order at h
  cases hget : alGet ps.order_ids k with
  | none =>
    rw [hget] at h
    injection h with h1 h2
    subst h2
    exact hw
  | some index =>
    rw [hget] at h
    simp only at h
    injection h with h1 h2
    subst h2
    constructor
    · intro k' i' hget'
      have hk' : k' ≠ k := by
        intro he
        subst he
        rw [alGet_alRemove_self] at hget'
        exact absurd hget' (by simp)
      rw [alGet_alRemove_ne _ _ _ hk'] at hget'
      obtain ⟨o', ho', hid⟩ := hw.strongGet k' i' hget'
      refine ⟨o', ?_, hid⟩
      simp only [List.get?_eq_getElem?] at ho' ⊢
      rw [List.getElem?_set, if_neg ?_]
      · exact ho'
      · intro he
        exact hk' (hw.inj k k' index i' hget hget' (fun x => hk' x.symm) he).symm
    · intro k1 k2 i1 i2 hg1 hg2 hne12 hii
      have hk1 : k1 ≠ k := by
        intro he; subst he; rw [alGet_alRemove_self] at hg1; simp at hg1
      have hk2 : k2 ≠ k := by
        intro he; subst he; rw [alGet_alRemove_self] at hg2; simp at hg2
      rw [alGet_alRemove_ne _ _ _ hk1] at hg1
      rw [alGet_alRemove_ne _ _ _ hk2] at hg2
      exact hw.inj k1 k2 i1 i2 hg1 hg2 hne12 hii
    · exact pairwise_set_of_rel (fun b o o' _ hc => by simp at hc)
        (fun b o o' hc _ => by simp at hc) hw.idsPair
    · intro o' hm
      rcases List.mem_or_eq_of_mem_set hm with hmem | heq
      · exact hw.idLe o' hmem
      · exact absurd heq (by simp)
    · intro o' hm
      rcases List.mem_or_eq_of_mem_set hm with hmem | heq
      · exact hw.priceEq o' hmem
      · exact absurd heq (by simp)

/-- `PriceStore.update_order` preserves the C5 level invariant when the
written order keeps the id of the slot it replaces and carries the level's
price (the shape of the matching engine's quantity update). -/
theorem update_order_wf5 {ps : PriceStore} (hw : WFLevel5 ps) {k : Nat}
    {o o' : Order}
    (htg : ps.try_get k = .ok o)
    (hid : o'.order_id = o.order_id) (hpr : o'.price = ps.price) :
    WFLevel5 (ps.update_order k o').2 := by
  unfold PriceStore.try_get at htg
  unfold PriceStore.update_order
  cases hget : alGet ps.order_ids k with
  | none => exact hw
  | some index =>
    rw [hget] at htg
    simp only at htg
    obtain ⟨og, hog, hogid⟩ := hw.strongGet k index hget
    have hjoin : ((ps.orders.get? index).join) = some og := by
      rw [hog]; rfl
    rw [hjoin] at htg
    simp only at htg
    injection htg with htg
    subst htg
    simp only
    have hbound := get?_lt_length hog
    constructor
    · intro k' i' hget'
      by_cases hk' : k' = k
      · subst hk'
        rw [hget] at hget'
        injection hget' with hget'
        subst hget'
        refine ⟨o', ?_, hid.trans hogid⟩
        simp only [List.get?_eq_getElem?]
        rw [List.getElem?_set, if_pos rfl, if_pos (by simpa using hbound)]
      · obtain ⟨ou, hou, houid⟩ := hw.strongGet k' i' hget'
        refine ⟨ou, ?_, houid⟩
        simp only [List.get?_eq_getElem?] at hou ⊢
        rw [List.getElem?_set, if_neg ?_]
        · exact hou
        · intro he
          exact hk' (hw.inj k' k i' index hget' hget hk' he.symm)
    · exact hw.inj
    · refine pairwise_set_of_iff hw.idsPair hog ?_ ?_
      · intro b hb ob o2 hob ho2
        injection ho2 with ho2
        subst ho2
        have h3 := hb ob og hob rfl
        omega
      · intro b hb ob o2 hob ho2
        injection hob with hob
        subst hob
        have h3 := hb og o2 rfl ho2
        omega
    · intro ou hm
      rcases List.mem_or_eq_of_mem_set hm with hmem | heq
      · exact hw.idLe ou hmem
      · injection heq with heq
        subst heq
        rw [hid, hogid]
        have := hw.idLe og (List.get?_mem hog)
        rw [hogid] at this
        exact this
    · intro ou hm
      rcases List.mem_or_eq_of_mem_set hm with hmem | heq
      · exact hw.priceEq ou hmem
      · injection heq with heq
        subst heq
        exact hpr


/-- `PriceLevelStore.push_order` preserves the C5 store invariant. -/
theorem push_order_wf5 {s : PriceLevelStore} (hw : WFStore5 s)
    (o : NewAccountOrder) : WFStore5 (s.push_order o).2 := by
  unfold PriceLevelStore.push_order
  cases hs : searchSorted s.levels_price o.price with
  | inl index =>
    have hpx := searchSorted_found hs
    obtain ⟨node, hn, hnp⟩ := levels_get_of_price hw.pricesEq hpx
    dsimp only
    rw [hn]
    constructor
    · exact hw.sorted
    · rw [List.map_set, add_order_price, hnp, hw.pricesEq]
      exact set_get?_self hpx
    · intro l hl
      rcases List.mem_or_eq_of_mem_set hl with hmem | heq
      · exact hw.levelsWF l hmem
      · subst heq
        exact add_order_wf5 (hw.levelsWF node (List.get?_mem hn)) hnp.symm
  | inr index =>
    dsimp only
    constructor
    · exact searchSorted_insert_pairwise hw.sorted hs
    · rw [map_insertIdx]
      show (s.levels.map (fun l => l.price)).insertIdx index
          ((PriceStore.new o.price).add_order o).2.price = _
      rw [add_order_price]
      show (s.levels.map (fun l => l.price)).insertIdx index
          (PriceStore.new o.price).price = _
      rw [hw.pricesEq]
      rfl
    · intro l hl
      rcases mem_insertIdx_or hl with heq | hmem
      · subst heq
        exact new_level_wf5 o
      · exact hw.levelsWF l hmem

/-- A successful `PriceLevelStore.remove_order` preserves the C5 store
invariant. -/
theorem remove_order_wf5_store {s : PriceLevelStore} (hw : WFStore5 s)
    {p k : Nat} {o : Order} {s' : PriceLevelStore}
    (h : s.remove_order p k = .ok (o, s')) : WFStore5 s' := by
  unfold PriceLevelStore.remove_order at h
  cases hs : searchSorted s.levels_price p with
  | inr _ => rw [hs] at h; exact absurd h (by simp)
  | inl index =>
    rw [hs] at h
    dsimp only at h
    have hpx := searchSorted_found hs
    obtain ⟨node, hn, hnp⟩ := levels_get_of_price hw.pricesEq hpx
    rw [hn] at h
    dsimp only at h
    cases hrm : node.remove_order k with
    | mk r node' =>
      rw [hrm] at h
      cases r with
      | none => exact absurd h (by simp)
      | some o' =>
        simp only at h
        split at h
        case isTrue hemp =>
          injection h with h
          injection h with h1 h2
          subst h2
          constructor
          · exact List.Pairwise.sublist (List.eraseIdx_sublist _ _) hw.sorted
          · rw [map_eraseIdx, hw.pricesEq]
          · intro l hl
            exact hw.levelsWF l ((List.eraseIdx_sublist _ _).mem hl)
        case isFalse hemp =>
          injection h with h
          injection h with h1 h2
          subst h2
          constructor
          · exact hw.sorted
          · rw [List.map_set, remove_order_price hrm, hnp, hw.pricesEq]
            exact set_get?_self hpx
          · intro l hl
            rcases List.mem_or_eq_of_mem_set hl with hmem | heq
            · exact hw.levelsWF l hmem
            · subst heq
              exact remove_order_wf5 (hw.levelsWF node (List.get?_mem hn)) hrm

/-- The quantity-only update (the engine's partial-fill write-back)
preserves the C5 store invariant. -/
theorem update_order_wf5_store {s : PriceLevelStore} (hw : WFStore5 s)
    {pid : PriceLevelId} {o : Order} (q : Nat)
    (htg : s.try_get pid.price pid.id = .ok o) :
    WFStore5 (s.update_order pid { o with quantity := q }).2 := by
  unfold PriceLevelStore.try_get at htg
  unfold PriceLevelStore.update_order
  cases hs : searchSorted s.levels_price pid.price with
  | inr _ => rw [hs] at htg; exact absurd htg (by simp)
  | inl index =>
    rw [hs] at htg
    dsimp only at htg
    have hpx := searchSorted_found hs
    obtain ⟨node, hn, hnp⟩ := levels_get_of_price hw.pricesEq hpx
    rw [hn] at htg
    dsimp only at htg
    dsimp only
    rw [hn]
    have hnwf := hw.levelsWF node (List.get?_mem hn)
    have hoprice : o.price = node.price := by
      unfold PriceStore.try_get at htg
      cases hget : alGet node.order_ids pid.id with
      | none => rw [hget] at htg; exact absurd htg (by simp)
      | some j =>
        rw [hget] at htg
        simp only at htg
        cases hsl : (node.orders.get? j).join with
        | none => rw [hsl] at htg; exact absurd htg (by simp)
        | some og =>
          rw [hsl] at htg
          simp only at htg
          injection htg with htg
          rw [← htg]
          cases hslot : node.orders.get? j with
          | none => rw [hslot] at hsl; simp [Option.join] at hsl
          | some sl =>
            rw [hslot] at hsl
            cases sl with
            | none => simp [Option.join] at hsl
            | some og' =>
              have heq : og' = og := by simpa [Option.join] using hsl
              subst heq
              exact hnwf.priceEq og' (List.get?_mem hslot)
    constructor
    · exact hw.sorted
    · rw [List.map_set, update_order_price, hnp, hw.pricesEq]
      exact set_get?_self hpx
    · intro l hl
      rcases List.mem_or_eq_of_mem_set hl with hmem | heq
      · exact hw.levelsWF l hmem
      · subst heq
        exact update_order_wf5 hnwf htg rfl (by rw [← hoprice])


/-- Entries produced from one well-formed level: every entry carries the
level's price, and ids strictly increase along the level (insertion
order). -/
theorem levelEntries_facts {node : PriceStore} (hw : WFLevel5 node)
    (side : OrderSide) :
    (∀ x ∈ OrderBook.levelEntries side node, x.2.price = node.price) ∧
    List.Pairwise (fun x y => x.2.order_id < y.2.order_id)
      (OrderBook.levelEntries side node) := by
  have hmem : ∀ o : Order, o ∈ node.iter → o.price = node.price ∧ True := by
    intro o hm
    unfold PriceStore.iter at hm
    obtain ⟨a, ha, hao⟩ := List.mem_filterMap.mp hm
    simp only [id_eq] at hao
    subst hao
    exact ⟨hw.priceEq o ha, trivial⟩
  constructor
  · intro x hx
    unfold OrderBook.levelEntries at hx
    obtain ⟨o, ho, hxo⟩ := List.mem_map.mp hx
    have hx2 : x.2 = o := by
      cases side <;> simp only at hxo <;> rw [← hxo]
    rw [hx2]
    exact (hmem o ho).1
  · unfold OrderBook.levelEntries
    rw [List.pairwise_map]
    have hids : List.Pairwise (fun o o' : Order =>
        o.order_id < o'.order_id) node.iter := by
      unfold PriceStore.iter
      rw [List.pairwise_filterMap]
      refine hw.idsPair.imp ?_
      intro a b hab x hxa y hyb
      simp only [id_eq, Option.mem_def] at hxa hyb
      exact hab x y hxa hyb
    refine hids.imp ?_
    intro a b hab
    cases side <;> simp only <;> exact hab
  
/-- The full sell-side (ascending) ordering of a well-formed store's
iteration. -/
theorem store_iter_sorted_sell {s : PriceLevelStore} (hw : WFStore5 s) :
    List.Pairwise (fun x y : OrderBookId × Order => x.2.price ≤ y.2.price ∧
      (x.2.price = y.2.price → x.2.order_id < y.2.order_id))
      ((s.iter_levels).flatMap (OrderBook.levelEntries .SELL)) := by
  rw [List.pairwise_flatMap]
  have hlp : List.Pairwise (fun l1 l2 : PriceStore => l1.price < l2.price)
      s.levels := by
    rw [← List.pairwise_map (f := fun l : PriceStore => l.price)]
    rw [hw.pricesEq]
    exact hw.sorted
  constructor
  · intro node hn
    obtain ⟨hprice, hids⟩ :=
      levelEntries_facts (hw.levelsWF node hn) OrderSide.SELL
    refine List.Pairwise.imp_of_mem ?_ hids
    intro x y hx hy hr
    rw [hprice x hx, hprice y hy]
    exact ⟨le_refl _, fun _ => hr⟩
  · refine List.Pairwise.imp_of_mem ?_ hlp
    intro n1 n2 hn1 hn2 hlt x hx y hy
    have h1 := (levelEntries_facts (hw.levelsWF n1 hn1) OrderSide.SELL).1 x hx
    have h2 := (levelEntries_facts (hw.levelsWF n2 hn2) OrderSide.SELL).1 y hy
    rw [h1, h2]
    exact ⟨le_of_lt hlt, fun he => absurd he (by omega)⟩

/-- The full buy-side (descending) ordering of a well-formed store's
reverse iteration. -/
theorem store_iter_sorted_buy {s : PriceLevelStore} (hw : WFStore5 s) :
    List.Pairwise (fun x y : OrderBookId × Order => y.2.price ≤ x.2.price ∧
      (x.2.price = y.2.price → x.2.order_id < y.2.order_id))
      ((s.iter_levels_rev).flatMap (OrderBook.levelEntries .BUY)) := by
  rw [List.pairwise_flatMap]
  have hlp : List.Pairwise (fun l1 l2 : PriceStore => l1.price < l2.price)
      s.levels := by
    rw [← List.pairwise_map (f := fun l : PriceStore => l.price)]
    rw [hw.pricesEq]
    exact hw.sorted
  have hlpr : List.Pairwise (fun l1 l2 : PriceStore => l2.price < l1.price)
      s.levels.reverse := by
    rw [List.pairwise_reverse]
    exact hlp
  constructor
  · intro node hn
    unfold PriceLevelStore.iter_levels_rev at hn
    have hn' : node ∈ s.levels := List.mem_reverse.mp hn
    obtain ⟨hprice, hids⟩ :=
      levelEntries_facts (hw.levelsWF node hn') OrderSide.BUY
    refine List.Pairwise.imp_of_mem ?_ hids
    intro x y hx hy hr
    rw [hprice x hx, hprice y hy]
    exact ⟨le_refl _, fun _ => hr⟩
  · refine List.Pairwise.imp_of_mem ?_ hlpr
    intro n1 n2 hn1 hn2 hlt x hx y hy
    have hn1' : n1 ∈ s.levels := List.mem_reverse.mp hn1
    have hn2' : n2 ∈ s.levels := List.mem_reverse.mp hn2
    have h1 := (levelEntries_facts (hw.levelsWF n1 hn1') OrderSide.BUY).1 x hx
    have h2 := (levelEntries_facts (hw.levelsWF n2 hn2') OrderSide.BUY).1 y hy
    rw [h1, h2]
    exact ⟨le_of_lt hlt, fun he => absurd he (by omega)⟩


/-- Book well-formedness: both sides' stores satisfy the C5 invariant. -/
def WFBook (b : OrderBook) : Prop :=
  WFStore5 b.buy_orders ∧ WFStore5 b.sell_orders

/-- The amended C5 reachable book states: any sequence of adds, removes
and quantity-only updates of existing orders (the engine's partial-fill
write-back shape) starting from the empty book. -/
inductive ReachBook : OrderBook → Prop where
  | empty : ReachBook OrderBook.new
  | addBuy (b : OrderBook) (o : NewAccountOrder) : ReachBook b →
      ReachBook (b.add_buy_order o).2
  | addSell (b : OrderBook) (o : NewAccountOrder) : ReachBook b →
      ReachBook (b.add_sell_order o).2
  | remove (b : OrderBook) (oid : OrderBookId) (o : Order)
      (b' : OrderBook) : ReachBook b →
      b.remove_order oid = .ok (o, b') → ReachBook b'
  | updateQty (b : OrderBook) (oid : OrderBookId) (o : Order) (q : Nat) :
      ReachBook b → b.try_get oid = .ok o →
      ReachBook (b.update_order oid { o with quantity := q }).2

theorem reachBook_wf {b : OrderBook} (h : ReachBook b) : WFBook b := by
  induction h with
  | empty =>
    constructor <;>
      exact ⟨by simp [OrderBook.new, PriceLevelStore.new],
        by simp [OrderBook.new, PriceLevelStore.new],
        fun l hl => absurd hl (by simp [OrderBook.new, PriceLevelStore.new])⟩
  | addBuy b o _ ih =>
    exact ⟨push_order_wf5 ih.1 o, ih.2⟩
  | addSell b o _ ih =>
    exact ⟨ih.1, push_order_wf5 ih.2 o⟩
  | remove b oid o b' _ hr ih =>
    unfold OrderBook.remove_order at hr
    cases oid with
    | BuyId plid =>
      dsimp only at hr
      cases hst : b.buy_orders.remove_order plid.price plid.id with
      | error e => rw [hst] at hr; exact absurd hr (by simp [Except.map])
      | ok p =>
        rw [hst] at hr
        simp only [Except.map] at hr
        injection hr with hr
        injection hr with hr1 hr2
        subst hr2
        exact ⟨remove_order_wf5_store ih.1 hst, ih.2⟩
    | SellId plid =>
      dsimp only at hr
      cases hst : b.sell_orders.remove_order plid.price plid.id with
      | error e => rw [hst] at hr; exact absurd hr (by simp [Except.map])
      | ok p =>
        rw [hst] at hr
        simp only [Except.map] at hr
        injection hr with hr
        injection hr with hr1 hr2
        subst hr2
        exact ⟨ih.1, remove_order_wf5_store ih.2 hst⟩
  | updateQty b oid o q _ htg ih =>
    unfold OrderBook.try_get at htg
    unfold OrderBook.update_order
    cases oid with
    | BuyId plid =>
      dsimp only at htg ⊢
      exact ⟨update_order_wf5_store ih.1 q htg, ih.2⟩
    | SellId plid =>
      dsimp only at htg ⊢
      exact ⟨ih.1, update_order_wf5_store ih.2 q htg⟩

/-- C5 (amended): for every book reached by adds, removes and
quantity-only updates, `maker_orders_iter` yields non-improving prices —
ascending on the sell side, descending on the buy side — and among entries
of equal price, strictly increasing `order_id` (ids are assigned from the
level's monotone counter at insertion, so this is insertion order: an
order resting earlier at a price is yielded, hence matched, first). -/
theorem maker_orders_price_time_priority (b : OrderBook)
    (h : ReachBook b) :
    List.Pairwise (fun x y : OrderBookId × Order =>
      x.2.price ≤ y.2.price ∧
      (x.2.price = y.2.price → x.2.order_id < y.2.order_id))
      (b.maker_orders_iter .SELL) ∧
    List.Pairwise (fun x y : OrderBookId × Order =>
      y.2.price ≤ x.2.price ∧
      (x.2.price = y.2.price → x.2.order_id < y.2.order_id))
      (b.maker_orders_iter .BUY) := by
  have hw := reachBook_wf h
  exact ⟨store_iter_sorted_sell hw.2, store_iter_sorted_buy hw.1⟩

/-- Witness for C5: a book reached by three sells (prices 55, 50, 55 — two
sharing a level) and one buy satisfies both orderings. -/
theorem maker_orders_price_time_priority_witness :
    List.Pairwise (fun x y : OrderBookId × Order =>
      x.2.price ≤ y.2.price ∧
      (x.2.price = y.2.price → x.2.order_id < y.2.order_id))
      (((((OrderBook.new.add_sell_order
        { quantity := 40, price := 55, fee_amount := 1, fee_token_asset := 9
          account := 7 }).2.add_sell_order
        { quantity := 10, price := 50, fee_amount := 1, fee_token_asset := 9
          account := 8 }).2.add_sell_order
        { quantity := 60, price := 55, fee_amount := 1, fee_token_asset := 9
          account := 9 }).2.add_buy_order
        { quantity := 20, price := 40, fee_amount := 1, fee_token_asset := 9
          account := 4 }).2.maker_orders_iter .SELL) ∧
    List.Pairwise (fun x y : OrderBookId × Order =>
      y.2.price ≤ x.2.price ∧
      (x.2.price = y.2.price → x.2.order_id < y.2.order_id))
      (((((OrderBook.new.add_sell_order
        { quantity := 40, price := 55, fee_amount := 1, fee_token_asset := 9
          account := 7 }).2.add_sell_order
        { quantity := 10, price := 50, fee_amount := 1, fee_token_asset := 9
          account := 8 }).2.add_sell_order
        { quantity := 60, price := 55, fee_amount := 1, fee_token_asset := 9
          account := 9 }).2.add_buy_order
        { quantity := 20, price := 40, fee_amount := 1, fee_token_asset := 9
          account := 4 }).2.maker_orders_iter .BUY) :=
  maker_orders_price_time_priority _
    (ReachBook.addBuy _ _ (ReachBook.addSell _ _ (ReachBook.addSell _ _
      (ReachBook.addSell _ _ ReachBook.empty))))


/-! ## Claim C8: placing an unmatched limit order then cancelling it -/

theorem searchSorted_insertIdx_found : ∀ {l : List Nat} {x i : Nat},
    searchSorted l x = .inr i →
    searchSorted (l.insertIdx i x) x = .inl i := by
  intro l
  induction l with
  | nil =>
    intro x i h
    unfold searchSorted at h
    injection h with h
    subst h
    simp [List.insertIdx_zero, searchSorted]
  | cons a t ih =>
    intro x i h
    unfold searchSorted at h
    split at h
    case isTrue hlt =>
      injection h with h
      subst h
      rw [List.insertIdx_zero]
      unfold searchSorted
      rw [if_neg (by omega), if_pos rfl]
    case isFalse hlt =>
      split at h
      case isTrue => exact absurd h (by simp)
      case isFalse hne =>
        cases hr : searchSorted t x with
        | inl j => rw [hr] at h; exact absurd h (by simp)
        | inr j =>
          rw [hr] at h
          injection h with h
          subst h
          rw [List.insertIdx_succ_cons]
          unfold searchSorted
          rw [if_neg hlt, if_neg hne, ih hr]

theorem get?_insertIdx_self {α : Type _} {a : α} :
    ∀ {l : List α} {i : Nat}, i ≤ l.length →
    (l.insertIdx i a).get? i = some a := by
  intro l
  induction l with
  | nil =>
    intro i h
    simp only [List.length_nil, Nat.le_zero] at h
    subst h
    simp [List.insertIdx_zero]
  | cons x t ih =>
    intro i h
    cases i with
    | zero => simp [List.insertIdx_zero]
    | succ n =>
      rw [List.insertIdx_succ_cons]
      simp only [List.get?]
      exact ih (by simpa using h)

theorem searchSorted_inr_le : ∀ {l : List Nat} {x i : Nat},
    searchSorted l x = .inr i → i ≤ l.length := by
  intro l
  induction l with
  | nil =>
    intro x i h
    unfold searchSorted at h
    injection h with h
    omega
  | cons a t ih =>
    intro x i h
    unfold searchSorted at h
    split at h
    · injection h with h; omega
    · split at h
      · exact absurd h (by simp)
      · cases hr : searchSorted t x with
        | inl j => rw [hr] at h; exact absurd h (by simp)
        | inr j =>
          rw [hr] at h
          injection h with h
          subst h
          have := ih hr
          simp only [List.length_cons]
          omega

/-- Removing the order just added to a level by its returned id hands the
order back. -/
theorem add_remove_order (node : PriceStore) (o : NewAccountOrder) :
    ∃ node'', (node.add_order o).2.remove_order (node.add_order o).1 =
      (some (o.into_order (node.add_order o).1), node'') := by
  unfold PriceStore.add_order PriceStore.remove_order
  dsimp only
  rw [alGet_alSet_self]
  dsimp only
  have hslot : ((node.orders ++
      [some (o.into_order (node.orders_id_counter + 1))]).get?
        node.orders.length) =
      some (some (o.into_order (node.orders_id_counter + 1))) := by
    rw [List.get?_append_right (le_refl _)]
    simp
  rw [hslot]
  exact ⟨_, rfl⟩

/-- Pushing an order and removing it by the returned id succeeds and hands
back exactly the pushed order. -/
theorem push_remove_roundtrip {s : PriceLevelStore}
    (hpe : s.levels.map (fun l => l.price) = s.levels_price)
    (o : NewAccountOrder) :
    ∃ s'', ((s.push_order o).2).remove_order o.price (s.push_order o).1 =
      .ok (o.into_order (s.push_order o).1, s'') := by
  unfold PriceLevelStore.push_order
  cases hs : searchSorted s.levels_price o.price with
  | inl index =>
    have hpx := searchSorted_found hs
    obtain ⟨node, hn, hnp⟩ := levels_get_of_price hpe hpx
    dsimp only
    rw [hn]
    dsimp only
    unfold PriceLevelStore.remove_order
    dsimp only
    rw [hs]
    dsimp only
    have hb : index < s.levels.length := get?_lt_length hn
    have hget : (s.levels.set index (node.add_order o).2).get? index =
        some (node.add_order o).2 := by
      simp only [List.get?_eq_getElem?]
      rw [List.getElem?_set, if_pos rfl, if_pos hb]
    rw [hget]
    dsimp only
    obtain ⟨node'', heq⟩ := add_remove_order node o
    rw [heq]
    dsimp only
    split <;> exact ⟨_, rfl⟩
  | inr index =>
    dsimp only
    unfold PriceLevelStore.remove_order
    dsimp only
    rw [searchSorted_insertIdx_found hs]
    dsimp only
    rw [get?_insertIdx_self (by
      rw [← hpe] at hs
      have := searchSorted_inr_le hs
      simpa using this)]
    dsimp only
    obtain ⟨node'', heq⟩ := add_remove_order (PriceStore.new o.price) o
    rw [heq]
    dsimp only
    split <;> exact ⟨_, rfl⟩


/-- When every opposite maker violates the taker's limit price, the walk
records nothing. -/
theorem fillLoop_all_skip (taker : NewOrder) (side : OrderSide) :
    ∀ (makers : List (OrderBookId × Order)) (rem : Nat),
    (∀ e ∈ makers, (side = OrderSide.BUY → taker.price < e.2.price) ∧
      (side = OrderSide.SELL → e.2.price < taker.price)) →
    fillLoop taker side .Limit makers rem = ([], .NoFill, rem) := by
  intro makers
  induction makers with
  | nil => intro rem _; rfl
  | cons m rest ih =>
    intro rem hnm
    obtain ⟨oix, o⟩ := m
    unfold fillLoop
    rw [if_pos ?_]
    · exact ih rem (fun e he => hnm e (List.mem_cons_of_mem _ he))
    · refine ⟨rfl, ?_⟩
      have := hnm (oix, o) (List.mem_cons_self _ _)
      cases side with
      | BUY => exact .inl ⟨rfl, this.1 rfl⟩
      | SELL => exact .inr ⟨rfl, this.2 rfl⟩

/-- Placing a limit order against a book with no matching liquidity
produces no fills and rests the full order on its own side. -/
theorem place_order_no_match (b : OrderBook) (order : NewOrder)
    (side : OrderSide) (user : Nat) (hq : 0 < order.quantity)
    (hnm : ∀ e ∈ b.maker_orders_iter
        (match side with
         | OrderSide.BUY => OrderSide.SELL
         | OrderSide.SELL => OrderSide.BUY),
      (side = OrderSide.BUY → order.price < e.2.price) ∧
      (side = OrderSide.SELL → e.2.price < order.price)) :
    place_order b .Limit side order user =
      (match side with
       | OrderSide.BUY =>
         .ok (some ((b.add_buy_order (order.into_order user)).1, order),
           [], (b.add_buy_order (order.into_order user)).2)
       | OrderSide.SELL =>
         .ok (some ((b.add_sell_order (order.into_order user)).1, order),
           [], (b.add_sell_order (order.into_order user)).2)) := by
  cases side with
  | BUY =>
    have hfl := fillLoop_all_skip order .BUY
      (b.maker_orders_iter .SELL) order.quantity hnm
    unfold place_order fill_order
    dsimp only
    rw [hfl]
    dsimp only
    rw [if_pos rfl]
    unfold finalize_matching
    dsimp only
    unfold finalizeLoop
    dsimp only
    rw [if_pos (by simp)]
    rw [if_pos (by simp)]
    rw [if_pos (by simpa using hq)]
  | SELL =>
    have hfl := fillLoop_all_skip order .SELL
      (b.maker_orders_iter .BUY) order.quantity hnm
    unfold place_order fill_order
    dsimp only
    rw [hfl]
    dsimp only
    rw [if_pos rfl]
    unfold finalize_matching
    dsimp only
    unfold finalizeLoop
    dsimp only
    rw [if_pos (by simp)]
    rw [if_pos (by simp)]
    rw [if_pos (by simpa using hq)]


theorem userBalances_eq {u : UserBalances} {x y : Int}
    (hx : x = u.balance) (hy : y = u.balance_in_trading) :
    ({ balance := x, balance_in_trading := y } : UserBalances) = u := by
  cases u
  simp only at hx hy
  rw [hx, hy]

theorem read_write_self (f : Balances) (u tok : Nat) (v : UserBalances) :
    (f.write u tok v).read u tok = v := by
  simp [Balances.read, Balances.write]

theorem read_write_ne (f : Balances) (u tok a t : Nat) (v : UserBalances)
    (h : ¬(a = u ∧ t = tok)) : (f.write u tok v).read a t = f.read a t := by
  simp only [Balances.read, Balances.write, if_neg h]

/-- C8: a limit order placed against a book with no matching liquidity
reserves `taker_withdraw_amount(price, quantity)` into the withdraw token's
`balance_in_trading`, and cancelling the resting order afterwards moves
exactly that amount back: `balance_in_trading` returns to zero and every
balance returns to its pre-placement value. -/
theorem place_cancel_restores_balances (b : OrderBook) (hb : ReachBook b)
    (pair : Nat × Nat) (d : Nat) (order : NewOrder) (user : Nat)
    (side : OrderSide) (bal : Balances) (hq : 0 < order.quantity)
    (hnm : ∀ e ∈ b.maker_orders_iter
        (match side with
         | OrderSide.BUY => OrderSide.SELL
         | OrderSide.SELL => OrderSide.BUY),
      (side = OrderSide.BUY → order.price < e.2.price) ∧
      (side = OrderSide.SELL → e.2.price < order.price))
    (hit : (bal.read user
      ((PayOffWithSides.create side pair d).taker_withdraw_token)
        ).balance_in_trading = 0) :
    ∃ oid b' bal' co b'' bal'',
      create_order b (PayOffWithSides.create side pair d) order user
        .Limit side bal = .ok ((oid, []), b', bal') ∧
      (bal'.read user
        ((PayOffWithSides.create side pair d).taker_withdraw_token)
          ).balance_in_trading =
        (PayOffWithSides.create side pair d).taker_withdraw_amount
          order.price order.quantity ∧
      cancel_order b' pair d oid user bal' = .ok (co, b'', bal'') ∧
      co.price = order.price ∧ co.quantity = order.quantity ∧
      (∀ a t, bal''.read a t = bal.read a t) ∧
      (bal''.read user
        ((PayOffWithSides.create side pair d).taker_withdraw_token)
          ).balance_in_trading = 0 := by
  have hwf := reachBook_wf hb
  cases side with
  | BUY =>
    have hplace := place_order_no_match b order .BUY user hq hnm
    obtain ⟨s'', hrt⟩ :=
      push_remove_roundtrip hwf.1.pricesEq (order.into_order user)
    cases hpush : b.buy_orders.push_order (order.into_order user) with
    | mk k st =>
      rw [hpush] at hrt
      dsimp only [NewOrder.into_order] at hrt
      have hadd : b.add_buy_order (order.into_order user) =
          (OrderBookId.buy_id order.price k, { b with buy_orders := st }) := by
        unfold OrderBook.add_buy_order
        rw [hpush]
        rfl
      rw [hadd] at hplace
      have hit' : (bal.read user pair.2).balance_in_trading = 0 := hit
      set bal1 : Balances := Balances.write
        (Balances.write bal user pair.1
          { balance := (bal.read user pair.1).balance + 0
            balance_in_trading :=
              (bal.read user pair.1).balance_in_trading })
        user pair.2
        { balance := (bal.read user pair.2).balance - 0 -
            multiply_price_and_quantity order.price order.quantity d
          balance_in_trading :=
            (bal.read user pair.2).balance_in_trading +
              multiply_price_and_quantity order.price order.quantity d }
        with hbal1
      have hcreate : create_order b (PayOffWithSides.create .BUY pair d)
          order user .Limit .BUY bal =
          .ok ((OrderBookId.buy_id order.price k, []),
            { b with buy_orders := st }, bal1) := by
        unfold create_order
        rw [hplace]
        dsimp only
        rw [if_pos (by simpa using hq)]
        rw [hbal1]
        rfl
      set bal2 : Balances := Balances.write bal1 user pair.2
        { balance := (bal1.read user pair.2).balance +
            multiply_price_and_quantity order.price order.quantity d
          balance_in_trading := (bal1.read user pair.2).balance_in_trading -
            multiply_price_and_quantity order.price order.quantity d }
        with hbal2
      have hcancel : cancel_order { b with buy_orders := st } pair d
          (OrderBookId.buy_id order.price k) user bal1 =
          .ok ((order.into_order user).into_order k,
            { b with buy_orders := s'' }, bal2) := by
        unfold cancel_order OrderBook.remove_order OrderBookId.buy_id
        dsimp only
        rw [hrt]
        dsimp only [Except.map]
        rw [hbal2]
        rfl
      have hb1p2 : bal1.read user pair.2 =
          { balance := (bal.read user pair.2).balance - 0 -
              multiply_price_and_quantity order.price order.quantity d
            balance_in_trading :=
              (bal.read user pair.2).balance_in_trading +
                multiply_price_and_quantity order.price order.quantity d } := by
        rw [hbal1, read_write_self]
      have hres : ∀ a t, bal2.read a t = bal.read a t := by
        intro a t
        by_cases h2 : a = user ∧ t = pair.2
        · obtain ⟨rfl, rfl⟩ := h2
          rw [hbal2, read_write_self, hb1p2]
          dsimp only
          exact userBalances_eq (by ring) (by ring)
        · rw [hbal2, read_write_ne _ _ _ _ _ _ h2, hbal1,
            read_write_ne _ _ _ _ _ _ h2]
          by_cases h1 : a = user ∧ t = pair.1
          · obtain ⟨rfl, rfl⟩ := h1
            rw [read_write_self]
            exact userBalances_eq (by ring) (by ring)
          · rw [read_write_ne _ _ _ _ _ _ h1]
      refine ⟨_, _, _, _, _, _, hcreate, ?_, hcancel, rfl, rfl, hres, ?_⟩
      · show (bal1.read user pair.2).balance_in_trading =
          multiply_price_and_quantity order.price order.quantity d
        rw [hb1p2]
        dsimp only
        rw [hit']
        rw [zero_add]
      · show (bal2.read user pair.2).balance_in_trading = 0
        rw [hres user pair.2]
        exact hit'
  | SELL =>
    have hplace := place_order_no_match b order .SELL user hq hnm
    obtain ⟨s'', hrt⟩ :=
      push_remove_roundtrip hwf.2.pricesEq (order.into_order user)
    cases hpush : b.sell_orders.push_order (order.into_order user) with
    | mk k st =>
      rw [hpush] at hrt
      dsimp only [NewOrder.into_order] at hrt
      have hadd : b.add_sell_order (order.into_order user) =
          (OrderBookId.sell_id order.price k, { b with sell_orders := st }) := by
        unfold OrderBook.add_sell_order
        rw [hpush]
        rfl
      rw [hadd] at hplace
      have hit' : (bal.read user pair.1).balance_in_trading = 0 := hit
      set bal1 : Balances := Balances.write
        (Balances.write bal user pair.2
          { balance := (bal.read user pair.2).balance + 0
            balance_in_trading :=
              (bal.read user pair.2).balance_in_trading })
        user pair.1
        { balance := (bal.read user pair.1).balance - 0 -
            return_quantity order.price order.quantity d
          balance_in_trading :=
            (bal.read user pair.1).balance_in_trading +
              return_quantity order.price order.quantity d }
        with hbal1
      have hcreate : create_order b (PayOffWithSides.create .SELL pair d)
          order user .Limit .SELL bal =
          .ok ((OrderBookId.sell_id order.price k, []),
            { b with sell_orders := st }, bal1) := by
        unfold create_order
        rw [hplace]
        dsimp only
        rw [if_pos (by simpa using hq)]
        rw [hbal1]
        rfl
      set bal2 : Balances := Balances.write bal1 user pair.1
        { balance := (bal1.read user pair.1).balance +
            return_quantity order.price order.quantity d
          balance_in_trading := (bal1.read user pair.1).balance_in_trading -
            return_quantity order.price order.quantity d }
        with hbal2
      have hcancel : cancel_order { b with sell_orders := st } pair d
          (OrderBookId.sell_id order.price k) user bal1 =
          .ok ((order.into_order user).into_order k,
            { b with sell_orders := s'' }, bal2) := by
        unfold cancel_order OrderBook.remove_order OrderBookId.sell_id
        dsimp only
        rw [hrt]
        dsimp only [Except.map]
        rw [hbal2]
        rfl
      have hb1p1 : bal1.read user pair.1 =
          { balance := (bal.read user pair.1).balance - 0 -
              return_quantity order.price order.quantity d
            balance_in_trading :=
              (bal.read user pair.1).balance_in_trading +
                return_quantity order.price order.quantity d } := by
        rw [hbal1, read_write_self]
      have hres : ∀ a t, bal2.read a t = bal.read a t := by
        intro a t
        by_cases h1 : a = user ∧ t = pair.1
        · obtain ⟨rfl, rfl⟩ := h1
          rw [hbal2, read_write_self, hb1p1]
          dsimp only
          exact userBalances_eq (by ring) (by ring)
        · rw [hbal2, read_write_ne _ _ _ _ _ _ h1, hbal1,
            read_write_ne _ _ _ _ _ _ h1]
          by_cases h2 : a = user ∧ t = pair.2
          · obtain ⟨rfl, rfl⟩ := h2
            rw [read_write_self]
            exact userBalances_eq (by ring) (by ring)
          · rw [read_write_ne _ _ _ _ _ _ h2]
      refine ⟨_, _, _, _, _, _, hcreate, ?_, hcancel, rfl, rfl, hres, ?_⟩
      · show (bal1.read user pair.1).balance_in_trading =
          return_quantity order.price order.quantity d
        rw [hb1p1]
        dsimp only
        rw [hit']
        rw [zero_add]
      · show (bal2.read user pair.1).balance_in_trading = 0
        rw [hres user pair.1]
        exact hit'

theorem place_cancel_restores_balances_witness :
    ∃ oid b' bal' co b'' bal'',
      create_order OrderBook.new (PayOffWithSides.create .BUY (1, 2) 0)
        { quantity := 10, price := 5, fee_amount := 1, fee_token_asset := 9 }
        3 .Limit .BUY zeroBalances = .ok ((oid, []), b', bal') ∧
      (bal'.read 3
        ((PayOffWithSides.create .BUY (1, 2) 0).taker_withdraw_token)
          ).balance_in_trading =
        (PayOffWithSides.create .BUY (1, 2) 0).taker_withdraw_amount 5 10 ∧
      cancel_order b' (1, 2) 0 oid 3 bal' = .ok (co, b'', bal'') ∧
      co.price = 5 ∧ co.quantity = 10 ∧
      (∀ a t, bal''.read a t = zeroBalances.read a t) ∧
      (bal''.read 3
        ((PayOffWithSides.create .BUY (1, 2) 0).taker_withdraw_token)
          ).balance_in_trading = 0 :=
  place_cancel_restores_balances OrderBook.new ReachBook.empty (1, 2) 0
    { quantity := 10, price := 5, fee_amount := 1, fee_token_asset := 9 }
    3 .BUY zeroBalances (by decide)
    (by intro e he; cases he) rfl

end Clob
